import Mathlib

/-!
Shallow embedding of the query-compilation core of the
lsst-ts/rubintv_analysis_service repository
(src/python/lsst/rubintv/analysis/service/query.py and database.py),
together with theorems settling the claims about it.

Conventions of the embedding:
* Python dictionaries keyed by strings are modelled as association lists
  (`List (String × β)`); the source dictionaries have unique keys and
  preserve insertion order, so `List.lookup` (first match) and in-place
  value update match the source semantics.
* Python sets of strings are modelled as duplicate-free lists in first
  insertion order.  (CPython set iteration order is unspecified; every
  theorem below that depends on an order is stated so that the choice is
  irrelevant, or says so in its documentation.)
* Exceptions are modelled with `Except PyErr`; `PyErr` has one
  constructor per Python exception class that can escape the modelled
  code paths.
* sqlalchemy expressions are modelled by the `SAExpr` syntax tree, and
  their SQL meaning on a single row by the three-valued (Kleene)
  evaluator `evalSA` (SQL `NULL` is `none`).
-/

namespace RubinTV

/-- A SQL value as it appears in a column or a query literal:
`NULL`, an integer, or a string. -/
inductive SQLVal where
  | null
  | int (n : Int)
  | str (s : String)
  deriving DecidableEq, Repr

/-- The Python exception classes that can escape the modelled code paths.
`queryError` is `lsst.rubintv.analysis.service.query.QueryError` and
`joinError` is `lsst.rubintv.analysis.service.database.JoinError` (the
spec calls the latter `JoinPathError`); the remaining constructors are
Python built-in exceptions. -/
inductive PyErr where
  | valueError
  | keyError (key : String)
  | indexError
  | queryError
  | joinError
  | unboundLocalError
  deriving DecidableEq, Repr

/-- The sqlalchemy column/boolean expressions built by the service:
`column OP literal` comparisons, string-method filters, column-to-column
equalities (join conditions), `IS NOT NULL` guards, boolean combinators
and the `(day_obs, seq_num) IN (...)` tuple filter. -/
inductive SAExpr where
  | cmp (op : String) (table col : String) (v : SQLVal)
  | strOp (op : String) (table col : String) (v : SQLVal)
  | colEq (t1 c1 t2 c2 : String)
  | isNotNull (table col : String)
  | and (children : List SAExpr)
  | or (children : List SAExpr)
  | not (child : SAExpr)
  | inTuples (dayObs seqNum : String × String) (ids : List (Int × Int))

/-- A row of the (joined) database: a value for every `(table, column)`
pair.  Absent columns simply never get looked at by the expressions the
service builds. -/
def Row : Type := String → String → SQLVal

/-- `column OP literal` under SQL three-valued logic: any `NULL` operand
makes the comparison `UNKNOWN` (`none`); integers and strings compare
with their usual orders; a type mismatch is also `UNKNOWN`. -/
def cmpVals (op : String) (a b : SQLVal) : Option Bool :=
  match a, b with
  | .null, _ => none
  | _, .null => none
  | .int x, .int y =>
    match op with
    | "eq" => some (decide (x = y))
    | "ne" => some (decide (x ≠ y))
    | "lt" => some (decide (x < y))
    | "le" => some (decide (x ≤ y))
    | "gt" => some (decide (x > y))
    | "ge" => some (decide (x ≥ y))
    | _ => none
  | .str x, .str y =>
    match op with
    | "eq" => some (decide (x = y))
    | "ne" => some (decide (x ≠ y))
    | "lt" => some (decide (x < y))
    | "le" => some (decide (x ≤ y))
    | "gt" => some (decide (x > y))
    | "ge" => some (decide (x ≥ y))
    | _ => none
  | _, _ => none

/-- Split a list of characters at every occurrence of `.`
(helper for `pySplitDot`). -/
def splitCharsOnDot : List Char → List (List Char)
  | [] => [[]]
  | c :: rest =>
    let r := splitCharsOnDot rest
    if c = '.' then [] :: r
    else
      match r with
      | [] => [[c]]
      | g :: gs => (c :: g) :: gs

/-- Python `s.split(".")`: split on every dot, keeping empty parts, so
`"a.b"` gives `["a", "b"]`, `"ab"` gives `["ab"]`, `"a.b.c"` gives three
parts, `"a."` gives `["a", ""]` and `""` gives `[""]`. -/
def pySplitDot (s : String) : List String :=
  (splitCharsOnDot s.toList).map (fun cs => String.mk cs)

/-- Kleene conjunction of a list of three-valued results (SQL `AND`). -/
def kAnd (l : List (Option Bool)) : Option Bool :=
  if some false ∈ l then some false
  else if none ∈ l then none
  else some true

/-- Kleene disjunction of a list of three-valued results (SQL `OR`). -/
def kOr (l : List (Option Bool)) : Option Bool :=
  if some true ∈ l then some true
  else if none ∈ l then none
  else some false

mutual

/-- Three-valued evaluation of a sqlalchemy expression on one row. -/
def evalSA (row : Row) : SAExpr → Option Bool
  | .cmp op t c v => cmpVals op (row t c) v
  | .strOp op t c v =>
    match row t c, v with
    | .null, _ => none
    | _, .null => none
    | .str s, .str pat =>
      match op with
      | "startswith" => some (decide (pat.toList <+: s.toList))
      | "endswith" => some (decide (pat.toList <:+ s.toList))
      | "contains" => some (decide (pat.toList <:+: s.toList))
      | _ => none
    | _, _ => none
  | .colEq t1 c1 t2 c2 =>
    match row t1 c1, row t2 c2 with
    | .null, _ => none
    | _, .null => none
    | a, b => some (decide (a = b))
  | .isNotNull t c => some (decide (row t c ≠ .null))
  | .and children => kAnd (evalSAList row children)
  | .or children => kOr (evalSAList row children)
  | .not e => (evalSA row e).map (fun b => !b)
  | .inTuples d s ids =>
    match row d.1 d.2, row s.1 s.2 with
    | .int a, .int b => some (decide ((a, b) ∈ ids))
    | .null, _ => none
    | _, .null => none
    | _, _ => none
termination_by structural x => x

/-- Evaluate every expression of a list (helper for `evalSA`). -/
def evalSAList (row : Row) : List SAExpr → List (Option Bool)
  | [] => []
  | e :: es => evalSA row e :: evalSAList row es
termination_by structural x => x

end

/-- A declared equi-join between two tables
(one entry of the `joins` list handed to `JoinBuilder`):
`matches` maps each of the two table names to its ordered list of join
columns, in the dictionary's insertion order. -/
structure JoinTemplate where
  matches_ : List (String × List String)
  deriving DecidableEq, Repr

/-- `ConsDbSchema`, reduced to the data the claims depend on:
the live sqlalchemy tables (name ↦ ordered column names), the schema
configuration's declared `index_columns` per table, and the join
templates handed to the `JoinBuilder`. -/
structure ConsDbSchema where
  tables : List (String × List String)
  index_columns : List (String × List String)
  join_templates : List JoinTemplate
  deriving DecidableEq, Repr

/-- `ConsDbSchema.get_column`: split the qualified name on every `.`
(Python `column.split(".")`), unpack into exactly two parts (otherwise
`ValueError`), then look the table up in `self.tables` and the column up
in the table (each a `KeyError` on a miss).  The returned sqlalchemy
`Column` is modelled by its `(owning table, column name)` pair. -/
def ConsDbSchema.get_column (db : ConsDbSchema) (column : String) :
    Except PyErr (String × String) :=
  match pySplitDot column with
  | [table, col] =>
    match db.tables.lookup table with
    | none => .error (.keyError table)
    | some cols =>
      if col ∈ cols then .ok (table, col) else .error (.keyError col)
  | _ => .error .valueError

/-- The `left_operator` mirror table of `query.py`: when only a
`leftOperator`/`leftValue` pair is given, the ordering operator is
mirrored before the comparison is built. -/
def left_operator : List (String × String) :=
  [("eq", "eq"), ("ne", "ne"), ("lt", "gt"), ("le", "ge"), ("gt", "lt"),
   ("ge", "le"), ("starts with", "starts with"), ("ends with", "ends with"),
   ("contains", "contains")]

/-- Constructed query trees: `EqualityQuery` (a leaf comparison) or
`ParentQuery` (a boolean combinator over child queries). -/
inductive Query where
  | equality (column : String) (operator : String) (value : SQLVal)
  | parent (children : List Query) (operator : String)

/-- The wire format accepted by `Query.from_dict`: an `EqualityQuery`
node carries a field reference plus an optional left and an optional
right operator/value pair; a `ParentQuery` node carries an operator tag
and child nodes. -/
inductive WireQuery where
  | equality (schema name : String)
      (left : Option (String × SQLVal)) (right : Option (String × SQLVal))
  | parent (operator : String) (children : List WireQuery)

/-- The right-pair-only branch of `Query.from_dict`: the comparison is
built with the operator and value as given. -/
def parseRightOnly (s n rop : String) (rv : SQLVal) : Except PyErr Query :=
  .ok (.equality (s ++ "." ++ n) rop rv)

/-- The left-pair-only branch of `Query.from_dict`: the operator is
mirrored through `left_operator` first (an unknown operator is a
`KeyError`, caught and re-raised as `QueryError`). -/
def parseLeftOnly (s n lop : String) (lv : SQLVal) : Except PyErr Query :=
  match left_operator.lookup lop with
  | none => .error .queryError
  | some mop => .ok (.equality (s ++ "." ++ n) mop lv)

mutual

/-- `Query.from_dict`.  An `EqualityQuery` node with neither pair fails
(`KeyError` on `rightOperator`, re-raised as `QueryError`); with only a
right pair it becomes a comparison as given; with only a left pair the
operator is first mirrored through `left_operator`; with both pairs the
node is rebuilt as an AND `ParentQuery` over the two single-sided nodes,
each parsed through the corresponding single-sided branch (the source
recurses into `Query.from_dict` on the two reconstructed single-sided
dictionaries, which is exactly these branches).  A `ParentQuery` node
parses its children recursively. -/
def Query.from_dict : WireQuery → Except PyErr Query
  | .equality _ _ none none => .error .queryError
  | .equality s n none (some (rop, rv)) => parseRightOnly s n rop rv
  | .equality s n (some (lop, lv)) none => parseLeftOnly s n lop lv
  | .equality s n (some (lop, lv)) (some (rop, rv)) => do
    let ql ← parseLeftOnly s n lop lv
    let qr ← parseRightOnly s n rop rv
    .ok (.parent [ql, qr] "AND")
  | .parent operator children => do
    let cs ← Query.fromDictList children
    .ok (.parent cs operator)
termination_by structural x => x

/-- Parse every child of a `ParentQuery` node (helper). -/
def Query.fromDictList : List WireQuery → Except PyErr (List Query)
  | [] => .ok []
  | w :: ws => do
    let q ← Query.from_dict w
    let qs ← Query.fromDictList ws
    .ok (q :: qs)
termination_by structural x => x

end

/-- First-insertion-order union of two Python string sets
(`tables.update(result.tables)`). -/
def setUpdate (acc newNames : List String) : List String :=
  newNames.foldl (fun a s => if s ∈ a then a else a ++ [s]) acc

/-- The `match` on the combinator operator in `ParentQuery.__call__`,
applied to the child result expressions.  `sqlalchemy.and_` / `or_`
require at least one clause and `sqlalchemy.not_` takes exactly one
clause, so `NOT` over any other number of children raises a `TypeError`,
which the surrounding `try` re-raises as `QueryError`.  An operator
matched by no case leaves `result` unbound, so the later use raises
`UnboundLocalError` (outside the `try`). -/
def combineChildren (operator : String) (child_results : List SAExpr) :
    Except PyErr SAExpr :=
  match operator with
  | "AND" =>
    if child_results.isEmpty then .error .queryError
    else .ok (.and child_results)
  | "OR" =>
    if child_results.isEmpty then .error .queryError
    else .ok (.or child_results)
  | "NOT" =>
    match child_results with
    | [e] => .ok (.not e)
    | _ => .error .queryError
  | "XOR" =>
    if child_results.isEmpty then .error .queryError
    else .ok (.and [.or child_results, .not (.and child_results)])
  | _ => .error .unboundLocalError

/-- `EqualityQuery.__call__`: split `self.column` (exactly two parts,
else `ValueError`), resolve the column through
`ConsDbSchema.get_column`, then dispatch on the operator: the six
ordering operators build `column OP value`, the three string operators
call the column method, anything else raises `QueryError`.  The result
is paired with the singleton set of touched tables. -/
def EqualityQuery.call (db : ConsDbSchema) (column operator : String)
    (value : SQLVal) : Except PyErr (SAExpr × List String) :=
  match pySplitDot column with
  | [table_name, _] => do
    let tc ← db.get_column column
    if operator ∈ ["eq", "ne", "lt", "le", "gt", "ge"] then
      .ok (.cmp operator tc.1 tc.2 value, [table_name])
    else if operator ∈ ["startswith", "endswith", "contains"] then
      .ok (.strOp operator tc.1 tc.2 value, [table_name])
    else .error .queryError
  | _ => .error .valueError

mutual

/-- `Query.__call__` (dispatching on the node kind):
a `ParentQuery` evaluates every child, unions the touched-table sets in
visit order, and combines the child expressions with
`combineChildren`. -/
def Query.call (db : ConsDbSchema) : Query → Except PyErr (SAExpr × List String)
  | .equality column operator value => EqualityQuery.call db column operator value
  | .parent children operator => do
    let rs ← Query.callList db children
    let result ← combineChildren operator (rs.map Prod.fst)
    .ok (result, rs.foldl (fun acc r => setUpdate acc r.2) [])
termination_by structural x => x

/-- Evaluate every child query in order (helper for `Query.call`). -/
def Query.callList (db : ConsDbSchema) :
    List Query → Except PyErr (List (SAExpr × List String))
  | [] => .ok []
  | q :: qs => do
    let r ← Query.call db q
    let rs ← Query.callList db qs
    .ok (r :: rs)
termination_by structural x => x

end

/-- A concrete schema instance used by the concrete theorems below:
live `exposure`, `visit1` and `visit1_quicklook` tables, declared index
columns from the schema configuration, and join templates
`visit1 ↔ visit1_quicklook` (on `visit_id`) and `exposure ↔ visit1`. -/
def db0 : ConsDbSchema :=
  { tables := [
      ("exposure",
        ["exposure_id", "seq_num", "day_obs", "ra", "dec", "physical_filter", "obs_start"]),
      ("visit1", ["visit_id", "day_obs", "seq_num"]),
      ("visit1_quicklook", ["visit_id", "exp_time"])],
    index_columns := [
      ("exposure", ["day_obs", "seq_num"]),
      ("visit1", ["day_obs", "seq_num"]),
      ("visit1_quicklook", ["visit_id"])],
    join_templates := [
      ⟨[("visit1", ["visit_id"]), ("visit1_quicklook", ["visit_id"])]⟩,
      ⟨[("exposure", ["exposure_id"]), ("visit1", ["visit_id"])]⟩] }

/-- A concrete row used by witnesses below: `ra = 5`, `dec = -3` in
every table, every other column `NULL`. -/
def row0 : Row := fun _ c =>
  if c = "ra" then .int 5 else if c = "dec" then .int (-3) else SQLVal.null

/-- The tables of the schema that belong to the single-visit family
(`visit1_tables` in `database.py`). -/
def visit1_tables : List String :=
  ["visit1", "visit1_quicklook", "ccdvisit1", "ccdvisit1_quicklook"]

/-- The tables of the schema that belong to the exposure family
(`exposure_tables` in `database.py`). -/
def exposure_tables : List String :=
  ["exposure", "exposure_quicklook", "ccdexposure", "ccdexposure_camera",
   "ccdexposure_quicklook"]

/-- A sqlalchemy column with a `.label(...)` applied: the underlying
`(table, column)` pair plus the alias under which it is selected. -/
structure LabeledCol where
  table : String
  col : String
  label : String
  deriving DecidableEq, Repr

/-- The per-column loop of `ConsDbSchema.get_column_models`: split each
requested name (exactly two parts, else `ValueError`), collect the
table name into the `table_names` set (insertion order) and the column,
labelled `table.column`, into the projection. -/
def columnModelsLoop (db : ConsDbSchema) (acc_cols : List LabeledCol)
    (acc_names : List String) : List String →
    Except PyErr (List LabeledCol × List String)
  | [] => .ok (acc_cols, acc_names)
  | column :: rest =>
    match pySplitDot column with
    | [table_name, column_name] => do
      let tc ← db.get_column column
      columnModelsLoop db
        (acc_cols ++ [⟨tc.1, tc.2, table_name ++ "." ++ column_name⟩])
        (if table_name ∈ acc_names then acc_names else acc_names ++ [table_name])
        rest
    | _ => .error .valueError

/-- The `add_data_ids` closure of `get_column_models`: look up `day_obs`
and `seq_num` of the given table and append them to the projection with
the table name stripped from the labels (plain `day_obs` / `seq_num`);
also return them unlabelled as the data-id columns. -/
def add_data_ids (db : ConsDbSchema) (cols : List LabeledCol)
    (table_name : String) :
    Except PyErr (List LabeledCol × List (String × String)) := do
  let day_obs ← db.get_column (table_name ++ ".day_obs")
  let seq_num ← db.get_column (table_name ++ ".seq_num")
  .ok (cols ++ [⟨day_obs.1, day_obs.2, "day_obs"⟩, ⟨seq_num.1, seq_num.2, "seq_num"⟩],
       [day_obs, seq_num])

/-- `ConsDbSchema.get_column_models`: resolve each requested column,
then add the hard-coded data-id columns of `visit1` or `exposure`
according to the family of the first referenced table (an unsupported
family raises `ValueError`; no referenced table at all raises
`IndexError` from `list(table_names)[0]`).  The source takes
`list(table_names)[0]` from a Python `set`, whose iteration order is
unspecified; this model uses first-insertion order. -/
def ConsDbSchema.get_column_models (db : ConsDbSchema) (columns : List String) :
    Except PyErr (List LabeledCol × List String × List (String × String)) := do
  let (table_columns, table_names) ← columnModelsLoop db [] [] columns
  match table_names.head? with
  | none => .error .indexError
  | some first =>
    if first ∈ visit1_tables then do
      let (cols2, dids) ← add_data_ids db table_columns "visit1"
      .ok (cols2,
        (if "visit1" ∈ table_names then table_names else table_names ++ ["visit1"]),
        dids)
    else if first ∈ exposure_tables then do
      let (cols2, dids) ← add_data_ids db table_columns "exposure"
      .ok (cols2,
        (if "exposure" ∈ table_names then table_names else table_names ++ ["exposure"]),
        dids)
    else .error .valueError

/-- The join graph of `JoinBuilder`: for each table, an inner
insertion-ordered dictionary from neighbouring table to the ordered
column pairs of the join conditions. -/
abbrev JoinGraph := List (String × List (String × List (String × String)))

/-- Python dictionary assignment `d[k] = v`: replace the value in place
if the key exists (keeping its position), else append. -/
def updateAssoc {α : Type} (k : String) (v : α) :
    List (String × α) → List (String × α)
  | [] => [(k, v)]
  | (k2, v2) :: rest =>
    if k2 = k then (k2, v) :: rest else (k2, v2) :: updateAssoc k v rest

/-- `graph[t1][t2] = cols` for an outer key `t1` that is already
present (as it always is in `_build_join_graph`, which initialises the
outer dictionary with every table). -/
def setEdge (graph : JoinGraph) (t1 t2 : String)
    (cols : List (String × String)) : JoinGraph :=
  graph.map (fun entry =>
    if entry.1 = t1 then (entry.1, updateAssoc t2 cols entry.2) else entry)

/-- `JoinBuilder._build_join_graph`: start from an outer dictionary with
every table and no edges; for each join template take its first two
tables, skip the template (with a warning) if either is not a live
table, and otherwise store the positionally zipped column pairs under
`graph[t1][t2]` and the mirrored pairs under `graph[t2][t1]`.
(A degenerate template with fewer than two tables would raise
`IndexError` in the source; it is skipped here and no theorem below
involves one.) -/
def addJoinTemplate (tables : List (String × List String))
    (graph : JoinGraph) (join : JoinTemplate) : JoinGraph :=
  match join.matches_ with
  | (t1, cols1) :: (t2, cols2) :: _ =>
    if t1 ∈ tables.map Prod.fst ∧ t2 ∈ tables.map Prod.fst then
      let join_columns := cols1.zip cols2
      setEdge (setEdge graph t1 t2 join_columns) t2 t1
        (join_columns.map (fun p => (p.2, p.1)))
    else graph
  | _ => graph

/-- The fold of `_build_join_graph` over the join templates, one
`addJoinTemplate` step per template. -/
def build_join_graph (tables : List (String × List String))
    (joins : List JoinTemplate) : JoinGraph :=
  joins.foldl (addJoinTemplate tables) (tables.map (fun t => (t.1, [])))

/-- The join graph a `ConsDbSchema` builds at start-up
(`self.joins = JoinBuilder(self.tables, join_templates)`). -/
def ConsDbSchema.join_graph (db : ConsDbSchema) : JoinGraph :=
  build_join_graph db.tables db.join_templates

/-- The breadth-first search of `JoinBuilder._find_join_path`: a FIFO
queue of `(node, path so far)` pairs and a visited set.  A popped
visited node is skipped; reaching `end` returns the accumulated path;
otherwise the node is marked visited and its unvisited neighbours are
appended in stored edge-insertion order.  An empty queue raises
`JoinError` (no path).  Looking up a node that is not a key of the
graph would raise `KeyError`, which cannot happen for graphs built by
`build_join_graph`. -/
def bfsAux (graph : JoinGraph) (endT : String) :
    List (String × List String) → List String → Except PyErr (List String)
  | [], _ => .error .joinError
  | (node, path) :: queue, visited =>
    if node ∈ visited then bfsAux graph endT queue visited
    else if node = endT then .ok path
    else
      match hadj : graph.lookup node with
      | none => .error (.keyError node)
      | some adj =>
        bfsAux graph endT
          (queue ++ ((adj.map Prod.fst).filter
            (fun m => decide (¬ m ∈ node :: visited))).map
            (fun m => (m, path ++ [m])))
          (node :: visited)
termination_by queue visited =>
  (((graph.map Prod.fst).filter (fun k => decide (¬ k ∈ visited))).length,
   queue.length)
decreasing_by
  · apply Prod.Lex.right
    simp
  · apply Prod.Lex.left
    have hmem : ∀ (g : JoinGraph), g.lookup node = some adj →
        node ∈ g.map Prod.fst := by
      intro g
      induction g with
      | nil => intro h; simp [List.lookup] at h
      | cons e t ih =>
        obtain ⟨k, v⟩ := e
        intro h
        by_cases hk : node = k
        · simp [hk]
        · have hbeq : (node == k) = false := by simpa using hk
          simp only [List.lookup, hbeq] at h
          exact List.mem_cons_of_mem _ (ih h)
    have hnode : node ∈ graph.map Prod.fst := hmem graph hadj
    have h1 : (graph.map Prod.fst).filter (fun k => decide (¬ k ∈ node :: visited)) =
        ((graph.map Prod.fst).filter (fun k => decide (¬ k ∈ visited))).filter
          (fun k => decide (¬ k = node)) := by
      rw [List.filter_filter]
      apply List.filter_congr
      intro x _
      by_cases hx : x = node <;> by_cases hv : x ∈ visited <;> simp [hx, hv]
    rw [h1]
    apply List.length_filter_lt_length_iff_exists.mpr
    refine ⟨node, ?_, by simp⟩
    rw [List.mem_filter]
    rename_i hnv _
    exact ⟨hnode, by simpa using hnv⟩

/-- `JoinBuilder._find_join_path`: BFS over the join graph starting
from the queue `[(start, [start])]` and an empty visited set. -/
def find_join_path (graph : JoinGraph) (start endT : String) :
    Except PyErr (List String) :=
  bfsAux graph endT [(start, [start])] []

/-- The sqlalchemy FROM clause built by `JoinBuilder.build_join`:
either a bare table or a nested `sqlalchemy.join(left, right, *conds)`. -/
inductive SAFrom where
  | table (name : String)
  | join (left : SAFrom) (right : String) (onConds : List SAExpr)

/-- Whether a FROM clause contains a join (observer for theorems). -/
def SAFrom.hasJoin : SAFrom → Bool
  | .table _ => false
  | .join _ _ _ => true

/-- The per-edge condition loop of `JoinBuilder.build_join`: for each
declared column pair build `tables[t1].columns[col1] ==
tables[t2].columns[col2]`; a missing table or column raises `KeyError`
(logged in the source and then re-raised unchanged). -/
def buildConditions (tables : List (String × List String)) (t1 t2 : String) :
    List (String × String) → Except PyErr (List SAExpr)
  | [] => .ok []
  | (col1, col2) :: rest =>
    match tables.lookup t1 with
    | none => .error (.keyError t1)
    | some cols1 =>
      if col1 ∈ cols1 then
        match tables.lookup t2 with
        | none => .error (.keyError t2)
        | some cols2 =>
          if col2 ∈ cols2 then do
            let cs ← buildConditions tables t1 t2 rest
            .ok (.colEq t1 col1 t2 col2 :: cs)
          else .error (.keyError col2)
      else .error (.keyError col1)

/-- The inner loop of `JoinBuilder.build_join`, walking a found join
path pairwise: an already-joined step target is skipped (but still
becomes the previous node); otherwise the edge conditions are looked up
(`KeyError` if the edge is missing), materialised with
`buildConditions`, required non-empty (`ValueError` otherwise), and the
join is chained. -/
def joinAlongPath (tables : List (String × List String)) (graph : JoinGraph)
    (select_from : SAFrom) (joined : List String) (prev : String) :
    List String → Except PyErr (SAFrom × List String)
  | [] => .ok (select_from, joined)
  | t2 :: more =>
    if t2 ∈ joined then joinAlongPath tables graph select_from joined t2 more
    else
      match graph.lookup prev with
      | none => .error (.keyError prev)
      | some adj =>
        match adj.lookup t2 with
        | none => .error (.keyError t2)
        | some pairs => do
          let conds ← buildConditions tables prev t2 pairs
          if conds.isEmpty then .error .valueError
          else
            joinAlongPath tables graph (.join select_from t2 conds) (joined ++ [t2]) t2 more

/-- The outer loop of `JoinBuilder.build_join`: for each remaining
requested table not yet joined, find a BFS path from the anchor (the
first requested table) and materialise it with `joinAlongPath`. -/
def buildJoinLoop (tables : List (String × List String)) (graph : JoinGraph)
    (anchor : String) (select_from : SAFrom) (joined : List String) :
    List String → Except PyErr (SAFrom × List String)
  | [] => .ok (select_from, joined)
  | current :: more =>
    if current ∈ joined then
      buildJoinLoop tables graph anchor select_from joined more
    else do
      let path ← find_join_path graph anchor current
      match path with
      | [] => buildJoinLoop tables graph anchor select_from joined more
      | p0 :: ptail => do
        let (sf, j) ← joinAlongPath tables graph select_from joined p0 ptail
        buildJoinLoop tables graph anchor sf j more

/-- `JoinBuilder.build_join`: start from the first requested table (an
empty request raises `IndexError`, an unknown first table `KeyError`)
and join every other requested table along its BFS path. -/
def build_join (tables : List (String × List String)) (graph : JoinGraph)
    (table_names : List String) : Except PyErr SAFrom :=
  match table_names with
  | [] => .error .indexError
  | t0 :: rest =>
    match tables.lookup t0 with
    | none => .error (.keyError t0)
    | some _ => do
      let (sf, _) ← buildJoinLoop tables graph t0 (.table t0) [t0] rest
      .ok sf

/-- The executed SELECT statement, as assembled by
`ConsDbSchema.query`: the projected (labelled) columns, the FROM
clause, and the WHERE clause. -/
structure SelectModel where
  projection : List LabeledCol
  select_from : SAFrom
  whereClause : SAExpr

/-- `ConsDbSchema.query`: resolve the requested columns and the
hard-coded data-id columns, build the WHERE clause as the conjunction
of `IS NOT NULL` guards on every projected column, AND-ed with the
compiled query predicate (if any) and with the
`(day_obs, seq_num) IN data_ids` filter (if any), resolve the join over
all touched tables, and assemble the SELECT. -/
def ConsDbSchema.query (db : ConsDbSchema) (columns : List String)
    (query : Option Query) (data_ids : Option (List (Int × Int))) :
    Except PyErr SelectModel := do
  let (table_columns, table_names, data_id_columns) ← db.get_column_models columns
  match data_id_columns with
  | [day_obs_column, seq_num_column] => do
    let query_model :=
      SAExpr.and (table_columns.map (fun c => SAExpr.isNotNull c.table c.col))
    let (query_model, table_names) ←
      match query with
      | none => Except.ok (query_model, table_names)
      | some q => do
        let qr ← q.call db
        Except.ok (SAExpr.and [query_model, qr.1], setUpdate table_names qr.2)
    let query_model :=
      match data_ids with
      | none => query_model
      | some ids =>
        SAExpr.and [query_model, .inTuples day_obs_column seq_num_column ids]
    let select_from ← build_join db.tables db.join_graph table_names
    .ok ⟨table_columns, select_from, query_model⟩
  | _ => .error .valueError

/-- A schema like `db0` but whose live `visit1` table is missing the
`visit_id` column that the join template declares (the configuration
error of claim C7). -/
def db1 : ConsDbSchema :=
  { tables := [
      ("visit1", ["day_obs", "seq_num"]),
      ("visit1_quicklook", ["visit_id", "exp_time"])],
    index_columns := [
      ("visit1", ["day_obs", "seq_num"]),
      ("visit1_quicklook", ["visit_id"])],
    join_templates := [
      ⟨[("visit1", ["visit_id"]), ("visit1_quicklook", ["visit_id"])]⟩] }

/-- Adjacency in the join graph: `b` is a stored neighbour of `a`. -/
def adjacentIn (graph : JoinGraph) (a b : String) : Prop :=
  b ∈ ((graph.lookup a).getD []).map Prod.fst

/-- `p` is a path in the join graph from `s` to `e`: nonempty, starts
at `s`, ends at `e`, and each consecutive pair is adjacent. -/
def isJoinPath (graph : JoinGraph) (s e : String) (p : List String) : Prop :=
  p.head? = some s ∧ p.getLast? = some e ∧ List.Chain' (adjacentIn graph) p

/- ===================== theorems ===================== -/

/-- Unfolding: BFS on an empty queue raises `JoinError` (helper). -/
theorem bfsAux_nil (graph : JoinGraph) (endT : String) (visited : List String) :
    bfsAux graph endT [] visited = .error .joinError := by
  simp [bfsAux]

/-- Unfolding: BFS skips an already-visited popped node (helper). -/
theorem bfsAux_skip (graph : JoinGraph) (endT node : String) (path : List String)
    (queue : List (String × List String)) (visited : List String)
    (h : node ∈ visited) :
    bfsAux graph endT ((node, path) :: queue) visited =
      bfsAux graph endT queue visited := by
  rw [bfsAux]
  simp [h]

/-- Unfolding: BFS returns the accumulated path on reaching the target
(helper). -/
theorem bfsAux_found (graph : JoinGraph) (endT : String) (path : List String)
    (queue : List (String × List String)) (visited : List String)
    (h : endT ∉ visited) :
    bfsAux graph endT ((endT, path) :: queue) visited = .ok path := by
  rw [bfsAux]
  simp [h]

/-- Unfolding: BFS visits a fresh non-target node, enqueueing its
unvisited neighbours in stored order (helper). -/
theorem bfsAux_visit (graph : JoinGraph) (endT node : String) (path : List String)
    (queue : List (String × List String)) (visited : List String)
    (adj : List (String × List (String × String)))
    (hnv : node ∉ visited) (hne : node ≠ endT)
    (hlk : graph.lookup node = some adj) :
    bfsAux graph endT ((node, path) :: queue) visited =
      bfsAux graph endT
        (queue ++ ((adj.map Prod.fst).filter
          (fun m => decide (¬ m ∈ node :: visited))).map
          (fun m => (m, path ++ [m])))
        (node :: visited) := by
  conv_lhs => rw [bfsAux]
  rw [if_neg hnv, if_neg hne]
  split
  · rename_i heq
    exact ((Option.some_ne_none _) (hlk.symm.trans heq)).elim
  · rename_i adj2 heq
    have hadj : adj2 = adj := by
      have h2 := hlk.symm.trans heq
      injection h2 with h3
      exact h3.symm
    rw [hadj]

/-- Unfolding: BFS raises `KeyError` on a node missing from the graph
(helper; unreachable for graphs built by `build_join_graph`). -/
theorem bfsAux_keyerror (graph : JoinGraph) (endT node : String)
    (path : List String) (queue : List (String × List String))
    (visited : List String)
    (hnv : node ∉ visited) (hne : node ≠ endT)
    (hlk : graph.lookup node = none) :
    bfsAux graph endT ((node, path) :: queue) visited =
      .error (.keyError node) := by
  conv_lhs => rw [bfsAux]
  rw [if_neg hnv, if_neg hne]
  split
  · rfl
  · rename_i adj2 heq
    exact ((Option.some_ne_none _) (heq.symm.trans hlk)).elim

/-- A successful association-list lookup means the key is present
(helper). -/
theorem lookup_some_mem_keys {α : Type} (l : List (String × α)) (k : String)
    (v : α) (h : l.lookup k = some v) : k ∈ l.map Prod.fst := by
  induction l with
  | nil => simp [List.lookup] at h
  | cons e t ih =>
    obtain ⟨a, b⟩ := e
    by_cases hk : k = a
    · simp [hk]
    · have hbeq : (k == a) = false := by simpa using hk
      simp only [List.lookup, hbeq] at h
      exact List.mem_cons_of_mem _ (ih h)

/-- A present key always looks up to some value (helper). -/
theorem mem_keys_lookup_isSome {α : Type} (l : List (String × α)) (k : String)
    (h : k ∈ l.map Prod.fst) : ∃ v, l.lookup k = some v := by
  induction l with
  | nil => simp at h
  | cons e t ih =>
    obtain ⟨a, b⟩ := e
    by_cases hk : k = a
    · refine ⟨b, ?_⟩
      have hbeq : (k == a) = true := by simpa using hk
      simp [List.lookup, hbeq]
    · have hbeq : (k == a) = false := by simpa using hk
      have hmem : k ∈ t.map Prod.fst := by
        rcases List.mem_cons.mp h with h1 | h1
        · exact absurd h1 hk
        · exact h1
      obtain ⟨v, hv⟩ := ih hmem
      exact ⟨v, by simp [List.lookup, hbeq, hv]⟩

/-- The last element of `A ++ b :: C` is the last of `b :: C`
(helper). -/
theorem getLast?_append_cons {α : Type} (A : List α) (b : α) (C : List α) :
    (A ++ b :: C).getLast? = (b :: C).getLast? := by
  rw [List.getLast?_append]
  cases hc : (b :: C).getLast? with
  | none =>
    have : (b :: C) ≠ [] := by simp
    rw [List.getLast?_eq_none_iff] at hc
    exact absurd hc this
  | some y => rfl

/-- A list with a repeated element splits around the repetition
(helper). -/
theorem exists_dup_split {α : Type} [DecidableEq α] :
    ∀ (P : List α), ¬ P.Nodup →
      ∃ (x : α) (A B C : List α), P = A ++ x :: B ++ x :: C := by
  intro P
  induction P with
  | nil => intro h; exact absurd List.nodup_nil h
  | cons a t ih =>
    intro h
    by_cases ha : a ∈ t
    · obtain ⟨B, C, hbc⟩ := List.append_of_mem ha
      exact ⟨a, [], B, C, by rw [hbc]; simp⟩
    · have : ¬ t.Nodup := fun hnd => h (List.nodup_cons.mpr ⟨ha, hnd⟩)
      obtain ⟨x, A, B, C, habc⟩ := ih this
      exact ⟨x, a :: A, B, C, by rw [habc]; rfl⟩

/-- Cutting a cycle out of a join-graph path keeps it a path and
shortens it (helper). -/
theorem isJoinPath_cut (graph : JoinGraph) (s e : String) (x : String)
    (A B C : List String)
    (h : isJoinPath graph s e (A ++ x :: B ++ x :: C)) :
    isJoinPath graph s e (A ++ x :: C) := by
  obtain ⟨hhead, hlast, hchain⟩ := h
  refine ⟨?_, ?_, ?_⟩
  · rcases A with _ | ⟨a0, A'⟩
    · simpa using hhead
    · simpa using hhead
  · rw [getLast?_append_cons] at hlast ⊢
    exact hlast
  · rw [List.chain'_append] at hchain ⊢
    obtain ⟨hAB, hxc, hlink⟩ := hchain
    rw [List.chain'_append] at hAB
    obtain ⟨hA, _, hlink2⟩ := hAB
    refine ⟨hA, hxc, ?_⟩
    intro u hu y hy
    have hadj := hlink2 u hu x (by simp)
    have hyx : y = x := by
      have h5 : x = y := by simpa using hy
      exact h5.symm
    rw [hyx]
    exact hadj

/-- Every join-graph path can be shortened to a duplicate-free one
(helper). -/
theorem exists_nodup_path (graph : JoinGraph) (s e : String) :
    ∀ (n : Nat) (P : List String), P.length ≤ n → isJoinPath graph s e P →
      ∃ Q, isJoinPath graph s e Q ∧ Q.Nodup ∧ Q.length ≤ P.length := by
  intro n
  induction n with
  | zero =>
    intro P hP hpath
    rcases P with _ | ⟨p0, Pr⟩
    · obtain ⟨hhead, _, _⟩ := hpath
      simp at hhead
    · simp at hP
  | succ n ih =>
    intro P hP hpath
    by_cases hnd : P.Nodup
    · exact ⟨P, hpath, hnd, le_refl _⟩
    · obtain ⟨x, A, B, C, hsplit⟩ := exists_dup_split P hnd
      have hpath' : isJoinPath graph s e (A ++ x :: C) := by
        rw [hsplit] at hpath
        exact isJoinPath_cut graph s e x A B C hpath
      have hlt : (A ++ x :: C).length < P.length := by
        rw [hsplit]
        simp [List.length_append]
        omega
      obtain ⟨Q, hQ, hQnd, hQle⟩ := ih (A ++ x :: C) (by omega) hpath'
      exact ⟨Q, hQ, hQnd, by omega⟩

/-- `setEdge` keeps the outer keys unchanged (helper). -/
theorem keys_setEdge (g : JoinGraph) (t1 t2 : String)
    (cols : List (String × String)) :
    (setEdge g t1 t2 cols).map Prod.fst = g.map Prod.fst := by
  induction g with
  | nil => rfl
  | cons e t ih =>
    by_cases h : e.1 = t1 <;> simp [setEdge, h] <;>
      simpa [setEdge] using ih

/-- Looking up in `setEdge` either transforms the stored adjacency (at
the edited key) or leaves it unchanged (helper). -/
theorem lookup_setEdge (g : JoinGraph) (t1 t2 : String)
    (cols : List (String × String)) (a : String) :
    (setEdge g t1 t2 cols).lookup a =
      if a = t1 then (g.lookup a).map (updateAssoc t2 cols)
      else g.lookup a := by
  induction g with
  | nil => by_cases h : a = t1 <;> simp [setEdge, List.lookup, h]
  | cons e t ih =>
    obtain ⟨k, v⟩ := e
    have hcons : setEdge ((k, v) :: t) t1 t2 cols =
        (if k = t1 then (k, updateAssoc t2 cols v) else (k, v)) ::
          setEdge t t1 t2 cols := rfl
    rw [hcons]
    by_cases h1 : k = t1
    · rw [if_pos h1]
      by_cases hk : a = k
      · have hbeq : (a == k) = true := by simpa using hk
        have ha1 : a = t1 := hk.trans h1
        simp [List.lookup, hbeq, ha1, h1]
      · have hbeq : (a == k) = false := by simpa using hk
        have ha1 : ¬ a = t1 := fun hx => hk (hx.trans h1.symm)
        simp only [List.lookup, hbeq, if_neg ha1]
        exact ih.trans (if_neg ha1)
    · rw [if_neg h1]
      by_cases hk : a = k
      · have hbeq : (a == k) = true := by simpa using hk
        have ha1 : ¬ a = t1 := fun hx => h1 (hk.symm.trans hx)
        simp [List.lookup, hbeq, ha1]
      · have hbeq : (a == k) = false := by simpa using hk
        simp only [List.lookup, hbeq]
        exact ih

/-- The inner keys of `updateAssoc` are the updated key plus the old
keys (helper). -/
theorem keys_updateAssoc {α : Type} (k : String) (v : α)
    (l : List (String × α)) :
    ∀ b ∈ (updateAssoc k v l).map Prod.fst, b = k ∨ b ∈ l.map Prod.fst := by
  induction l with
  | nil =>
    intro b hb
    simp [updateAssoc] at hb
    exact Or.inl hb
  | cons e t ih =>
    intro b hb
    obtain ⟨k2, v2⟩ := e
    by_cases hk : k2 = k
    · have hupd : updateAssoc k v ((k2, v2) :: t) = (k2, v) :: t := by
        simp [updateAssoc, hk]
      rw [hupd, List.map_cons] at hb
      rcases List.mem_cons.mp hb with h1 | h1
      · exact Or.inr (by rw [h1]; simp)
      · exact Or.inr (by rw [List.map_cons]; exact List.mem_cons_of_mem _ h1)
    · have hupd : updateAssoc k v ((k2, v2) :: t) = (k2, v2) :: updateAssoc k v t := by
        simp [updateAssoc, hk]
      rw [hupd, List.map_cons] at hb
      rcases List.mem_cons.mp hb with h1 | h1
      · exact Or.inr (by rw [h1]; simp)
      · rcases ih b h1 with h2 | h2
        · exact Or.inl h2
        · exact Or.inr (by rw [List.map_cons]; exact List.mem_cons_of_mem _ h2)

/-- The outer keys of the built join graph are exactly the live table
names (helper). -/
theorem keys_build_join_graph (tables : List (String × List String))
    (joins : List JoinTemplate) :
    (build_join_graph tables joins).map Prod.fst = tables.map Prod.fst := by
  have hstep : ∀ (js : List JoinTemplate) (g : JoinGraph),
      (js.foldl (addJoinTemplate tables) g).map Prod.fst = g.map Prod.fst := by
    intro js
    induction js with
    | nil => intro g; rfl
    | cons j t ih =>
      intro g
      rw [List.foldl_cons, ih]
      unfold addJoinTemplate
      rcases hm : j.matches_ with _ | ⟨⟨t1, cols1⟩, _ | ⟨⟨t2, cols2⟩, rest⟩⟩
      · rfl
      · rfl
      · show List.map Prod.fst
            (if t1 ∈ tables.map Prod.fst ∧ t2 ∈ tables.map Prod.fst then
              setEdge (setEdge g t1 t2 (cols1.zip cols2)) t2 t1
                ((cols1.zip cols2).map (fun p => (p.2, p.1)))
            else g) = List.map Prod.fst g
        by_cases hg : t1 ∈ tables.map Prod.fst ∧ t2 ∈ tables.map Prod.fst
        · rw [if_pos hg]
          simp [keys_setEdge]
        · rw [if_neg hg]
  rw [build_join_graph, hstep]
  clear hstep
  induction tables with
  | nil => rfl
  | cons e t ih => simp [ih]

/-- The built join graph is closed: every stored neighbour is an outer
key (helper). -/
theorem build_join_graph_closed (tables : List (String × List String))
    (joins : List JoinTemplate) :
    ∀ a adj, (build_join_graph tables joins).lookup a = some adj →
      ∀ b ∈ adj.map Prod.fst, b ∈ (build_join_graph tables joins).map Prod.fst := by
  have hinit : ∀ a adj,
      (tables.map (fun t => (t.1, ([] : List (String × List (String × String)))))).lookup a
        = some adj → adj = [] := by
    intro a adj h
    induction tables with
    | nil => simp [List.lookup] at h
    | cons e t ih =>
      rcases hbeq : (a == e.1) with _ | _ <;>
        simp only [List.map_cons, List.lookup, hbeq] at h
      · exact ih h
      · exact (Option.some.injEq _ _ ▸ h).symm
  have hstep : ∀ (js : List JoinTemplate) (g : JoinGraph),
      (∀ a adj, g.lookup a = some adj →
        ∀ b ∈ adj.map Prod.fst, b ∈ tables.map Prod.fst) →
      (∀ a adj, (js.foldl (addJoinTemplate tables) g).lookup a = some adj →
        ∀ b ∈ adj.map Prod.fst, b ∈ tables.map Prod.fst) := by
    intro js
    induction js with
    | nil => intro g hg; exact hg
    | cons j t ih =>
      intro g hg
      rw [List.foldl_cons]
      apply ih
      intro a adj h b hb
      unfold addJoinTemplate at h
      rcases hm : j.matches_ with _ | ⟨⟨t1, cols1⟩, _ | ⟨⟨t2, cols2⟩, rest⟩⟩ <;>
        simp only [hm] at h
      · exact hg a adj h b hb
      · exact hg a adj h b hb
      · by_cases hguard : t1 ∈ tables.map Prod.fst ∧ t2 ∈ tables.map Prod.fst
        · rw [if_pos hguard] at h
          have h3 : List.lookup a (setEdge (setEdge g t1 t2 (cols1.zip cols2)) t2 t1
              ((cols1.zip cols2).map (fun p => (p.2, p.1)))) = some adj := h
          clear h
          rename' h3 => h
          rw [lookup_setEdge, lookup_setEdge] at h
          by_cases ha2 : a = t2
          · rw [if_pos ha2] at h
            by_cases ha1 : a = t1
            · rw [if_pos ha1] at h
              rcases hlk : g.lookup a with _ | adj0 <;> rw [hlk] at h
              · exact absurd h (by simp)
              · have hadj : adj = updateAssoc t1
                    ((cols1.zip cols2).map (fun p => (p.2, p.1)))
                    (updateAssoc t2 (cols1.zip cols2) adj0) := by
                  simpa using h.symm
                rw [hadj] at hb
                rcases keys_updateAssoc _ _ _ b hb with h1 | h1
                · rw [h1]; exact hguard.1
                · rcases keys_updateAssoc _ _ _ b h1 with h2 | h2
                  · rw [h2]; exact hguard.2
                  · exact hg a adj0 hlk b h2
            · rw [if_neg ha1] at h
              rcases hlk : g.lookup a with _ | adj0 <;> rw [hlk] at h
              · exact absurd h (by simp)
              · have hadj : adj = updateAssoc t1
                    ((cols1.zip cols2).map (fun p => (p.2, p.1))) adj0 := by
                  simpa using h.symm
                rw [hadj] at hb
                rcases keys_updateAssoc _ _ _ b hb with h1 | h1
                · rw [h1]; exact hguard.1
                · exact hg a adj0 hlk b h1
          · rw [if_neg ha2] at h
            by_cases ha1 : a = t1
            · rw [if_pos ha1] at h
              rcases hlk : g.lookup a with _ | adj0 <;> rw [hlk] at h
              · exact absurd h (by simp)
              · have hadj : adj = updateAssoc t2 (cols1.zip cols2) adj0 := by
                  simpa using h.symm
                rw [hadj] at hb
                rcases keys_updateAssoc _ _ _ b hb with h1 | h1
                · rw [h1]; exact hguard.2
                · exact hg a adj0 hlk b h1
            · rw [if_neg ha1] at h
              exact hg a adj h b hb
        · rw [if_neg hguard] at h
          exact hg a adj h b hb
  intro a adj h b hb
  rw [keys_build_join_graph]
  refine hstep joins _ ?_ a adj h b hb
  intro a0 adj0 h0 b0 hb0
  rw [hinit a0 adj0 h0] at hb0
  simp at hb0

/-- The BFS invariant lemma (shared helper for claim C1).  Over a
closed graph, given a queue whose entries carry valid paths from
`start`, sorted by path length and within one of each other, such that
every duplicate-free path from `start` to `endT` is covered by some
queue entry with an unvisited completion: the BFS either returns a path
from `start` to `endT` no longer than any duplicate-free path, or
raises exactly `JoinError`, in which case no duplicate-free path
exists. -/
theorem bfs_master (graph : JoinGraph) (endT start : String)
    (hclosed : ∀ a adj, graph.lookup a = some adj →
      ∀ b ∈ adj.map Prod.fst, b ∈ graph.map Prod.fst) :
    ∀ (Q : List (String × List String)) (V : List String),
      (∀ e ∈ Q, e.1 ∈ graph.map Prod.fst) →
      (∀ e ∈ Q, isJoinPath graph start e.1 e.2) →
      List.Pairwise (fun (a b : String × List String) => a.2.length ≤ b.2.length) Q →
      (∀ a ∈ Q, ∀ b ∈ Q, a.2.length ≤ b.2.length + 1) →
      (∀ P, isJoinPath graph start endT P → P.Nodup →
        ∃ e ∈ Q, ∃ S, isJoinPath graph e.1 endT S ∧ S.Nodup ∧
          (∀ x ∈ S, x ∉ V) ∧ e.2.length + S.length ≤ P.length + 1) →
      ((∀ p, bfsAux graph endT Q V = .ok p →
          isJoinPath graph start endT p ∧
          ∀ q, isJoinPath graph start endT q → q.Nodup → p.length ≤ q.length) ∧
       (bfsAux graph endT Q V = .error .joinError →
          ¬ ∃ P, isJoinPath graph start endT P ∧ P.Nodup) ∧
       (∀ err, bfsAux graph endT Q V = .error err → err = .joinError)) := by
  intro Q V
  induction Q, V using bfsAux.induct graph endT with
  | case1 V =>
    intro _ _ _ _ h4
    refine ⟨?_, ?_, ?_⟩
    · intro p hp
      rw [bfsAux_nil] at hp
      exact absurd hp (by simp)
    · rintro _ ⟨P, hP, hPnd⟩
      obtain ⟨e, he, _⟩ := h4 P hP hPnd
      exact absurd he (List.not_mem_nil _)
    · intro err herr
      rw [bfsAux_nil] at herr
      injection herr with h
      exact h.symm
  | case2 node path queue visited hvis ih =>
    intro h0 h1 h2 h3 h4
    have h0q : ∀ e ∈ queue, e.1 ∈ graph.map Prod.fst :=
      fun e he => h0 e (List.mem_cons_of_mem _ he)
    have h1q : ∀ e ∈ queue, isJoinPath graph start e.1 e.2 :=
      fun e he => h1 e (List.mem_cons_of_mem _ he)
    have h2q := (List.pairwise_cons.mp h2).2
    have h3q : ∀ a ∈ queue, ∀ b ∈ queue, a.2.length ≤ b.2.length + 1 :=
      fun a ha b hb =>
        h3 a (List.mem_cons_of_mem _ ha) b (List.mem_cons_of_mem _ hb)
    have h4q : ∀ P, isJoinPath graph start endT P → P.Nodup →
        ∃ e ∈ queue, ∃ S, isJoinPath graph e.1 endT S ∧ S.Nodup ∧
          (∀ x ∈ S, x ∉ visited) ∧ e.2.length + S.length ≤ P.length + 1 := by
      intro P hP hPnd
      obtain ⟨e, he, S, hS, hSnd, hSV, hlen⟩ := h4 P hP hPnd
      rcases List.mem_cons.mp he with heq | hmem
      · exfalso
        obtain ⟨hShead, _, _⟩ := hS
        rcases S with _ | ⟨s0, Sr⟩
        · simp at hShead
        · have hs0 : s0 = e.1 := by simpa using hShead
          have hs0v : s0 ∉ visited := hSV s0 (List.mem_cons_self _ _)
          rw [heq] at hs0
          exact hs0v (hs0 ▸ hvis)
      · exact ⟨e, hmem, S, hS, hSnd, hSV, hlen⟩
    have hrw := bfsAux_skip graph endT node path queue visited hvis
    obtain ⟨c1, c2, c3⟩ := ih h0q h1q h2q h3q h4q
    exact ⟨fun p hp => c1 p (hrw.symm.trans hp),
      fun herr => c2 (hrw.symm.trans herr),
      fun err herr => c3 err (hrw.symm.trans herr)⟩
  | case3 path queue visited hnv =>
    intro h0 h1 h2 h3 h4
    have hok := bfsAux_found graph endT path queue visited hnv
    refine ⟨?_, ?_, ?_⟩
    · intro p hp
      rw [hok] at hp
      have hpp : path = p := by injection hp
      constructor
      · have hpath := h1 (endT, path) (List.mem_cons_self _ _)
        rw [← hpp]
        exact hpath
      · intro q hq hqnd
        obtain ⟨e, he, S, hS, hSnd, hSV, hlen⟩ := h4 q hq hqnd
        have hle : path.length ≤ e.2.length := by
          rcases List.mem_cons.mp he with heq | hmem
          · rw [heq]
          · exact (List.pairwise_cons.mp h2).1 e hmem
        have hSne : 1 ≤ S.length := by
          obtain ⟨hShead, _, _⟩ := hS
          rcases S with _ | ⟨s0, Sr⟩
          · simp at hShead
          · simp
        rw [← hpp]
        omega
    · intro herr
      rw [hok] at herr
      exact absurd herr (by simp)
    · intro err herr
      rw [hok] at herr
      exact absurd herr (by simp)
  | case4 node path queue visited hnv hne hlk =>
    intro h0 _ _ _ _
    exfalso
    have hmem := h0 (node, path) (List.mem_cons_self _ _)
    obtain ⟨v, hv⟩ := mem_keys_lookup_isSome graph node hmem
    rw [hlk] at hv
    exact absurd hv (by simp)
  | case5 node path queue visited hnv hne adj hlk ih =>
    intro h0 h1 h2 h3 h4
    obtain ⟨hph, hpl, hpc⟩ := h1 (node, path) (List.mem_cons_self _ _)
    have hnews_mem : ∀ e ∈ ((adj.map Prod.fst).filter
        (fun m => decide (¬ m ∈ node :: visited))).map (fun m => (m, path ++ [m])),
        ∃ m, e = (m, path ++ [m]) ∧ m ∈ adj.map Prod.fst ∧ m ∉ node :: visited := by
      intro e he
      rcases List.mem_map.mp he with ⟨m, hm, rfl⟩
      have hmf := List.mem_filter.mp hm
      exact ⟨m, rfl, hmf.1, by simpa using hmf.2⟩
    have hmem_news : ∀ m, m ∈ adj.map Prod.fst → m ∉ node :: visited →
        (m, path ++ [m]) ∈ ((adj.map Prod.fst).filter
          (fun m => decide (¬ m ∈ node :: visited))).map (fun m => (m, path ++ [m])) := by
      intro m hmk hmv
      apply List.mem_map_of_mem
      rw [List.mem_filter]
      exact ⟨hmk, by simpa using hmv⟩
    have inv0 : ∀ e ∈ queue ++ ((adj.map Prod.fst).filter
        (fun m => decide (¬ m ∈ node :: visited))).map (fun m => (m, path ++ [m])),
        e.1 ∈ graph.map Prod.fst := by
      intro e he
      rcases List.mem_append.mp he with hq | hn
      · exact h0 e (List.mem_cons_of_mem _ hq)
      · obtain ⟨m, rfl, hmadj, _⟩ := hnews_mem e hn
        exact hclosed node adj hlk m hmadj
    have inv1 : ∀ e ∈ queue ++ ((adj.map Prod.fst).filter
        (fun m => decide (¬ m ∈ node :: visited))).map (fun m => (m, path ++ [m])),
        isJoinPath graph start e.1 e.2 := by
      intro e he
      rcases List.mem_append.mp he with hq | hn
      · exact h1 e (List.mem_cons_of_mem _ hq)
      · obtain ⟨m, rfl, hmadj, _⟩ := hnews_mem e hn
        refine ⟨?_, ?_, ?_⟩
        · rcases path with _ | ⟨p0, pr⟩
          · simp at hph
          · simpa using hph
        · simpa using List.getLast?_concat path
        · rw [List.chain'_append]
          refine ⟨hpc, List.chain'_singleton m, ?_⟩
          intro u hu y hy
          have hun : u = node := by
            rw [hpl] at hu
            have h8 : node = u := by simpa using hu
            exact h8.symm
          have hym : y = m := by
            have h8 : m = y := by simpa using hy
            exact h8.symm
          rw [hun, hym]
          show adjacentIn graph node m
          unfold adjacentIn
          rw [hlk]
          simpa using hmadj
    have inv2 : List.Pairwise (fun (a b : String × List String) =>
        a.2.length ≤ b.2.length) (queue ++ ((adj.map Prod.fst).filter
        (fun m => decide (¬ m ∈ node :: visited))).map (fun m => (m, path ++ [m]))) := by
      rw [List.pairwise_append]
      refine ⟨(List.pairwise_cons.mp h2).2, ?_, ?_⟩
      · have hconst : ∀ (xs : List String),
            List.Pairwise (fun (a b : String × List String) =>
              a.2.length ≤ b.2.length) (xs.map (fun m => (m, path ++ [m]))) := by
          intro xs
          induction xs with
          | nil => exact List.Pairwise.nil
          | cons x t ihp =>
            rw [List.map_cons, List.pairwise_cons]
            refine ⟨?_, ihp⟩
            intro b hb
            rcases List.mem_map.mp hb with ⟨y, _, rfl⟩
            simp
        exact hconst _
      · intro a ha b hb
        obtain ⟨m, rfl, _, _⟩ := hnews_mem b hb
        have hup := h3 a (List.mem_cons_of_mem _ ha) (node, path)
          (List.mem_cons_self _ _)
        have hup2 : a.2.length ≤ path.length + 1 := hup
        simp only [List.length_append, List.length_cons, List.length_nil]
        omega
    have inv3 : ∀ a ∈ queue ++ ((adj.map Prod.fst).filter
        (fun m => decide (¬ m ∈ node :: visited))).map (fun m => (m, path ++ [m])),
        ∀ b ∈ queue ++ ((adj.map Prod.fst).filter
        (fun m => decide (¬ m ∈ node :: visited))).map (fun m => (m, path ++ [m])),
        a.2.length ≤ b.2.length + 1 := by
      intro a ha b hb
      rcases List.mem_append.mp ha with haq | han <;>
        rcases List.mem_append.mp hb with hbq | hbn
      · exact h3 a (List.mem_cons_of_mem _ haq) b (List.mem_cons_of_mem _ hbq)
      · obtain ⟨m, rfl, _, _⟩ := hnews_mem b hbn
        have hup := h3 a (List.mem_cons_of_mem _ haq) (node, path)
          (List.mem_cons_self _ _)
        have hup2 : a.2.length ≤ path.length + 1 := hup
        simp only [List.length_append, List.length_cons, List.length_nil]
        omega
      · obtain ⟨m, rfl, _, _⟩ := hnews_mem a han
        have hlow := (List.pairwise_cons.mp h2).1 b hbq
        have hlow2 : path.length ≤ b.2.length := hlow
        simp only [List.length_append, List.length_cons, List.length_nil]
        omega
      · obtain ⟨m, rfl, _, _⟩ := hnews_mem a han
        obtain ⟨m2, rfl, _, _⟩ := hnews_mem b hbn
        simp only [List.length_append, List.length_cons, List.length_nil]
        omega
    have inv4 : ∀ P, isJoinPath graph start endT P → P.Nodup →
        ∃ e ∈ queue ++ ((adj.map Prod.fst).filter
          (fun m => decide (¬ m ∈ node :: visited))).map (fun m => (m, path ++ [m])),
        ∃ S, isJoinPath graph e.1 endT S ∧ S.Nodup ∧
          (∀ x ∈ S, x ∉ node :: visited) ∧
          e.2.length + S.length ≤ P.length + 1 := by
      intro P hP hPnd
      obtain ⟨e, he, S, hS, hSnd, hSV, hlen⟩ := h4 P hP hPnd
      by_cases hnS : node ∈ S
      · obtain ⟨S₁, S₂, hsplit⟩ := List.append_of_mem hnS
        have hSnd2 : (S₁ ++ node :: S₂).Nodup := hsplit ▸ hSnd
        have hn_not_S1 : node ∉ S₁ := by
          intro hx
          exact (List.nodup_append.mp hSnd2).2.2 hx (List.mem_cons_self _ _)
        have hn_not_S2 : node ∉ S₂ :=
          (List.nodup_cons.mp (List.nodup_append.mp hSnd2).2.1).1
        obtain ⟨hSh, hSl, hSc⟩ := hS
        have hS2ne : S₂ ≠ [] := by
          intro hnil
          rw [hsplit, hnil, getLast?_append_cons] at hSl
          have : node = endT := by simpa using hSl
          exact hne this
        obtain ⟨m, S₂', hS₂⟩ : ∃ m S₂', S₂ = m :: S₂' := by
          rcases S₂ with _ | ⟨m, S₂'⟩
          · exact absurd rfl hS2ne
          · exact ⟨m, S₂', rfl⟩
        rw [hS₂] at hsplit hn_not_S2
        have hchS : List.Chain' (adjacentIn graph) (S₁ ++ node :: m :: S₂') :=
          hsplit ▸ hSc
        have hadjnm : adjacentIn graph node m :=
          (List.chain'_cons.mp (List.chain'_append.mp hchS).2.1).1
        have hm_adjkeys : m ∈ adj.map Prod.fst := by
          unfold adjacentIn at hadjnm
          rw [hlk] at hadjnm
          simpa using hadjnm
        have hmS : m ∈ S := by
          rw [hsplit]
          exact List.mem_append_right _ (List.mem_cons_of_mem _
            (List.mem_cons_self _ _))
        have hm_nvis : m ∉ visited := hSV m hmS
        have hm_nnode : m ≠ node := by
          intro hmn
          exact hn_not_S2 (hmn ▸ List.mem_cons_self _ _)
        have hm_not_nv : m ∉ node :: visited := by
          intro hx
          rcases List.mem_cons.mp hx with h7 | h7
          · exact hm_nnode h7
          · exact hm_nvis h7
        refine ⟨(m, path ++ [m]),
          List.mem_append_right _ (hmem_news m hm_adjkeys hm_not_nv),
          m :: S₂', ⟨rfl, ?_, ?_⟩, ?_, ?_, ?_⟩
        · rw [hsplit, getLast?_append_cons, List.getLast?_cons_cons] at hSl
          exact hSl
        · exact (List.chain'_cons.mp (List.chain'_append.mp hchS).2.1).2
        · have : (node :: m :: S₂').Nodup :=
            (List.nodup_append.mp (hsplit ▸ hSnd)).2.1
          exact (List.nodup_cons.mp this).2
        · intro x hx
          have hxS : x ∈ S := by
            rw [hsplit]
            exact List.mem_append_right _ (List.mem_cons_of_mem _ hx)
          intro hxin
          rcases List.mem_cons.mp hxin with h7 | h7
          · exact hn_not_S2 (h7 ▸ hx)
          · exact (hSV x hxS) h7
        · have hplen : path.length ≤ e.2.length + S₁.length := by
            rcases List.mem_cons.mp he with heq | hmemq
            · have h9 : e.2.length = path.length := by rw [heq]
              omega
            · have h8 := (List.pairwise_cons.mp h2).1 e hmemq
              have h9 : path.length ≤ e.2.length := h8
              omega
          have hSlen : S.length = S₁.length + S₂'.length + 2 := by
            rw [hsplit]
            simp [List.length_append]
            omega
          simp only [List.length_append, List.length_cons, List.length_nil]
          omega
      · have he' : e ∈ queue := by
          rcases List.mem_cons.mp he with heq | hmem
          · exfalso
            obtain ⟨hSh, _, _⟩ := hS
            rcases S with _ | ⟨s0, Sr⟩
            · simp at hSh
            · have hs0 : s0 = e.1 := by simpa using hSh
              rw [heq] at hs0
              exact hnS (hs0 ▸ List.mem_cons_self _ _)
          · exact hmem
        refine ⟨e, List.mem_append_left _ he', S, hS, hSnd, ?_, hlen⟩
        intro x hx
        intro hxin
        rcases List.mem_cons.mp hxin with h7 | h7
        · exact hnS (h7 ▸ hx)
        · exact (hSV x hx) h7
    obtain ⟨c1, c2, c3⟩ := ih inv0 inv1 inv2 inv3 inv4
    have hrw := bfsAux_visit graph endT node path queue visited adj hnv hne hlk
    exact ⟨fun p hp => c1 p (hrw.symm.trans hp),
      fun herr => c2 (hrw.symm.trans herr),
      fun err herr => c3 err (hrw.symm.trans herr)⟩

/-- C1.  Over any join graph built by `build_join_graph`, for any start
table in the graph, `find_join_path` (the BFS of
`JoinBuilder._find_join_path`, visiting neighbours in stored
edge-insertion order) returns a path connecting `start` to `endT` that
is no longer than any other connecting path; it fails exactly when no
connecting path exists, and the error it fails with is always
`JoinError` (the class the spec calls `JoinPathError`). -/
theorem C1_find_join_path_spec (tables : List (String × List String))
    (joins : List JoinTemplate) (start endT : String)
    (hstart : start ∈ (build_join_graph tables joins).map Prod.fst) :
    (∀ p, find_join_path (build_join_graph tables joins) start endT = .ok p →
      isJoinPath (build_join_graph tables joins) start endT p ∧
      ∀ q, isJoinPath (build_join_graph tables joins) start endT q →
        p.length ≤ q.length) ∧
    (find_join_path (build_join_graph tables joins) start endT = .error .joinError ↔
      ¬ ∃ q, isJoinPath (build_join_graph tables joins) start endT q) ∧
    (∀ err, find_join_path (build_join_graph tables joins) start endT = .error err →
      err = .joinError) := by
  have hclosed := build_join_graph_closed tables joins
  have inv0 : ∀ e ∈ [(start, [start])],
      e.1 ∈ (build_join_graph tables joins).map Prod.fst := by
    intro e he
    have : e = (start, [start]) := by simpa using he
    rw [this]
    exact hstart
  have inv1 : ∀ e ∈ [(start, [start])],
      isJoinPath (build_join_graph tables joins) start e.1 e.2 := by
    intro e he
    have : e = (start, [start]) := by simpa using he
    rw [this]
    exact ⟨rfl, rfl, List.chain'_singleton start⟩
  have inv2 : List.Pairwise (fun (a b : String × List String) =>
      a.2.length ≤ b.2.length) [(start, [start])] := by
    simp
  have inv3 : ∀ a ∈ [(start, [start])], ∀ b ∈ [(start, [start])],
      a.2.length ≤ b.2.length + 1 := by
    intro a ha b hb
    have ha2 : a = (start, [start]) := by simpa using ha
    have hb2 : b = (start, [start]) := by simpa using hb
    rw [ha2, hb2]
    simp
  have inv4 : ∀ P, isJoinPath (build_join_graph tables joins) start endT P →
      P.Nodup → ∃ e ∈ [(start, [start])], ∃ S,
        isJoinPath (build_join_graph tables joins) e.1 endT S ∧ S.Nodup ∧
        (∀ x ∈ S, x ∉ ([] : List String)) ∧
        e.2.length + S.length ≤ P.length + 1 := by
    intro P hP hPnd
    refine ⟨(start, [start]), by simp, P, hP, hPnd,
      fun x _ => List.not_mem_nil x, by simp; omega⟩
  obtain ⟨c1, c2, c3⟩ := bfs_master (build_join_graph tables joins) endT start
    hclosed [(start, [start])] [] inv0 inv1 inv2 inv3 inv4
  refine ⟨?_, ⟨?_, ?_⟩, ?_⟩
  · intro p hp
    obtain ⟨hsound, hmin⟩ := c1 p hp
    refine ⟨hsound, ?_⟩
    intro q hq
    obtain ⟨q2, hq2, hq2nd, hle⟩ :=
      exists_nodup_path (build_join_graph tables joins) start endT
        q.length q (le_refl _) hq
    have := hmin q2 hq2 hq2nd
    omega
  · rintro herr ⟨q, hq⟩
    obtain ⟨q2, hq2, hq2nd, _⟩ :=
      exists_nodup_path (build_join_graph tables joins) start endT
        q.length q (le_refl _) hq
    exact c2 herr ⟨q2, hq2, hq2nd⟩
  · intro hno
    rcases hres : bfsAux (build_join_graph tables joins) endT
        [(start, [start])] [] with err | p
    · have herr := c3 _ hres
      rw [herr] at hres
      exact hres
    · exfalso
      exact hno ⟨p, (c1 p hres).1⟩
  · exact c3

/-- C1, witness: in the concrete join graph of `db0`,
`visit1_quicklook` connects to `exposure` through the intermediate
`visit1`, and the BFS result is that three-table path, which the
theorem certifies to be a shortest connecting path. -/
theorem C1_witness :
    "visit1_quicklook" ∈
      (build_join_graph db0.tables db0.join_templates).map Prod.fst ∧
    find_join_path (build_join_graph db0.tables db0.join_templates)
      "visit1_quicklook" "exposure" =
      .ok ["visit1_quicklook", "visit1", "exposure"] ∧
    ((∀ p, find_join_path (build_join_graph db0.tables db0.join_templates)
        "visit1_quicklook" "exposure" = .ok p →
      isJoinPath (build_join_graph db0.tables db0.join_templates)
        "visit1_quicklook" "exposure" p ∧
      ∀ q, isJoinPath (build_join_graph db0.tables db0.join_templates)
        "visit1_quicklook" "exposure" q → p.length ≤ q.length) ∧
    (find_join_path (build_join_graph db0.tables db0.join_templates)
        "visit1_quicklook" "exposure" = .error .joinError ↔
      ¬ ∃ q, isJoinPath (build_join_graph db0.tables db0.join_templates)
        "visit1_quicklook" "exposure" q) ∧
    (∀ err, find_join_path (build_join_graph db0.tables db0.join_templates)
        "visit1_quicklook" "exposure" = .error err → err = .joinError)) := by
  refine ⟨by decide, ?_, C1_find_join_path_spec db0.tables db0.join_templates
    "visit1_quicklook" "exposure" (by decide)⟩
  simp +decide [find_join_path, bfsAux, build_join_graph, addJoinTemplate,
    setEdge, updateAssoc, db0, List.lookup]

/-- A successful `get_column` returns exactly the two dot-separated
parts of its argument, the table being a live table containing the
column (shared helper). -/
theorem get_column_ok_split (db : ConsDbSchema) (s : String) (v : String × String)
    (h : db.get_column s = .ok v) :
    pySplitDot s = [v.1, v.2] ∧
    ∃ cols, db.tables.lookup v.1 = some cols ∧ v.2 ∈ cols := by
  unfold ConsDbSchema.get_column at h
  rcases hs : pySplitDot s with _ | ⟨t, _ | ⟨c, _ | _⟩⟩ <;> rw [hs] at h
  · exact absurd h (by simp)
  · exact absurd h (by simp)
  · have h2 : (match db.tables.lookup t with
        | none => Except.error (PyErr.keyError t)
        | some cols =>
          if c ∈ cols then Except.ok (t, c) else Except.error (PyErr.keyError c)) =
        Except.ok v := h
    rcases hlk : db.tables.lookup t with _ | cols <;> rw [hlk] at h2
    · exact absurd h2 (by simp)
    · have h3 : (if c ∈ cols then Except.ok (t, c)
          else Except.error (PyErr.keyError c)) = Except.ok v := h2
      by_cases hc : c ∈ cols
      · rw [if_pos hc] at h3
        cases h3
        exact ⟨rfl, cols, hlk, hc⟩
      · rw [if_neg hc] at h3
        exact absurd h3 (by simp)
  · exact absurd h (by simp)

/-- Every column collected by the per-column loop is either carried in
from the accumulator or labelled with its fully-qualified
`table.column` name (shared helper). -/
theorem columnModelsLoop_labels (db : ConsDbSchema) :
    ∀ (cs : List String) (acc : List LabeledCol) (names : List String)
      (out : List LabeledCol) (outNames : List String),
      columnModelsLoop db acc names cs = .ok (out, outNames) →
      ∀ lc ∈ out, lc ∈ acc ∨ lc.label = lc.table ++ "." ++ lc.col := by
  intro cs
  induction cs with
  | nil =>
    intro acc names out outNames h lc hlc
    cases h
    exact Or.inl hlc
  | cons column rest ih =>
    intro acc names out outNames h lc hlc
    unfold columnModelsLoop at h
    rcases hs : pySplitDot column with _ | ⟨t, _ | ⟨c, _ | _⟩⟩ <;> rw [hs] at h
    · exact absurd h (by simp)
    · exact absurd h (by simp)
    · have h2 : (do
          let tc ← db.get_column column
          columnModelsLoop db (acc ++ [⟨tc.1, tc.2, t ++ "." ++ c⟩])
            (if t ∈ names then names else names ++ [t]) rest) =
          Except.ok (out, outNames) := h
      rcases hg : db.get_column column with e | v <;>
        simp only [hg, bind, Except.bind] at h2
      · exact absurd h2 (by simp)
      · rcases ih _ _ _ _ h2 lc hlc with hin | hlabel
        · rcases List.mem_append.mp hin with hacc | hnew
          · exact Or.inl hacc
          · have hsp := (get_column_ok_split db column v hg).1
            rw [hs] at hsp
            have hv1 : t = v.1 := by injection hsp
            have hv2 : c = v.2 := by
              injection hsp with _ h3
              injection h3
            have : lc = ⟨v.1, v.2, t ++ "." ++ c⟩ := by simpa using hnew
            rw [this, hv1, hv2]
            exact Or.inr rfl
        · exact Or.inr hlabel
    · exact absurd h (by simp)

/-- Characterisation of a successful `add_data_ids` (shared helper):
both hard-coded data-id columns resolve, are appended with plain
labels, and are returned as the data-id pair. -/
theorem add_data_ids_spec (db : ConsDbSchema) (cols : List LabeledCol) (t : String)
    (cols2 : List LabeledCol) (dids : List (String × String))
    (h : add_data_ids db cols t = .ok (cols2, dids)) :
    ∃ v1 v2, db.get_column (t ++ ".day_obs") = .ok v1 ∧
      db.get_column (t ++ ".seq_num") = .ok v2 ∧
      cols2 = cols ++ [⟨v1.1, v1.2, "day_obs"⟩, ⟨v2.1, v2.2, "seq_num"⟩] ∧
      dids = [v1, v2] := by
  unfold add_data_ids at h
  rcases hg1 : db.get_column (t ++ ".day_obs") with e | v1 <;>
    simp only [hg1, bind, Except.bind] at h
  · exact absurd h (by simp)
  rcases hg2 : db.get_column (t ++ ".seq_num") with e | v2 <;>
    simp only [hg2, bind, Except.bind] at h
  · exact absurd h (by simp)
  cases h
  exact ⟨v1, v2, rfl, rfl, rfl, rfl⟩

/-- Characterisation of a successful `get_column_models` (shared
helper): the projection is the loop's fully-qualified columns followed
by the two hard-coded data-id columns of the anchor table (`visit1` for
the visit family, `exposure` for the exposure family), labelled plainly
`day_obs` and `seq_num`; the anchor is added to the table-name set; and
the anchor is a live table containing `day_obs` and `seq_num`. -/
theorem get_column_models_spec (db : ConsDbSchema) (columns : List String)
    (tc : List LabeledCol) (names : List String) (dids : List (String × String))
    (h : db.get_column_models columns = .ok (tc, names, dids)) :
    ∃ loopCols loopNames first anchor,
      columnModelsLoop db [] [] columns = .ok (loopCols, loopNames) ∧
      loopNames.head? = some first ∧
      ((first ∈ visit1_tables ∧ anchor = "visit1") ∨
       (first ∉ visit1_tables ∧ first ∈ exposure_tables ∧ anchor = "exposure")) ∧
      dids = [(anchor, "day_obs"), (anchor, "seq_num")] ∧
      tc = loopCols ++
        [⟨anchor, "day_obs", "day_obs"⟩, ⟨anchor, "seq_num", "seq_num"⟩] ∧
      names = (if anchor ∈ loopNames then loopNames else loopNames ++ [anchor]) ∧
      ∃ colsA, db.tables.lookup anchor = some colsA ∧
        "day_obs" ∈ colsA ∧ "seq_num" ∈ colsA := by
  unfold ConsDbSchema.get_column_models at h
  rcases hloop : columnModelsLoop db [] [] columns with e | ⟨loopCols, loopNames⟩ <;>
    simp only [hloop, bind, Except.bind] at h
  · exact absurd h (by simp)
  rcases hhead : loopNames.head? with _ | first <;> simp only [hhead] at h
  · exact absurd h (by simp)
  by_cases hv : first ∈ visit1_tables
  · rw [if_pos hv] at h
    rcases hadd : add_data_ids db loopCols "visit1" with e | vv
    · simp only [hadd] at h
      exact absurd h (by simp)
    obtain ⟨cols2, dids2⟩ := vv
    simp only [hadd] at h
    obtain ⟨v1, v2, hg1, hg2, hcols2, hdids2⟩ :=
      add_data_ids_spec db loopCols "visit1" cols2 dids2 hadd
    simp only [Except.ok.injEq, Prod.mk.injEq] at h
    obtain ⟨htc, hnames, hdids⟩ := h
    have hv1 : v1 = ("visit1", "day_obs") := by
      have hsp := (get_column_ok_split db _ v1 hg1).1
      have hred : pySplitDot ("visit1" ++ ".day_obs") = ["visit1", "day_obs"] := rfl
      rw [hred] at hsp
      obtain ⟨a, b⟩ := v1
      simp at hsp
      simp [hsp.1, hsp.2]
    have hv2 : v2 = ("visit1", "seq_num") := by
      have hsp := (get_column_ok_split db _ v2 hg2).1
      have hred : pySplitDot ("visit1" ++ ".seq_num") = ["visit1", "seq_num"] := rfl
      rw [hred] at hsp
      obtain ⟨a, b⟩ := v2
      simp at hsp
      simp [hsp.1, hsp.2]
    obtain ⟨colsA, hlkA, hmemA⟩ := (get_column_ok_split db _ v1 hg1).2
    obtain ⟨colsB, hlkB, hmemB⟩ := (get_column_ok_split db _ v2 hg2).2
    rw [hv1] at hlkA hmemA
    rw [hv2] at hlkB hmemB
    have hAB : colsA = colsB := by
      have h3 := hlkA.symm.trans hlkB
      injection h3
    refine ⟨loopCols, loopNames, first, "visit1", rfl, hhead, Or.inl ⟨hv, rfl⟩,
      ?_, ?_, ?_, colsA, hlkA, hmemA, ?_⟩
    · rw [← hdids, hdids2, hv1, hv2]
    · rw [← htc, hcols2, hv1, hv2]
    · rw [← hnames]
    · rw [hAB]
      exact hmemB
  · rw [if_neg hv] at h
    by_cases he : first ∈ exposure_tables
    · rw [if_pos he] at h
      rcases hadd : add_data_ids db loopCols "exposure" with e | vv
      · simp only [hadd] at h
        exact absurd h (by simp)
      obtain ⟨cols2, dids2⟩ := vv
      simp only [hadd] at h
      obtain ⟨v1, v2, hg1, hg2, hcols2, hdids2⟩ :=
        add_data_ids_spec db loopCols "exposure" cols2 dids2 hadd
      simp only [Except.ok.injEq, Prod.mk.injEq] at h
      obtain ⟨htc, hnames, hdids⟩ := h
      have hv1 : v1 = ("exposure", "day_obs") := by
        have hsp := (get_column_ok_split db _ v1 hg1).1
        have hred : pySplitDot ("exposure" ++ ".day_obs") = ["exposure", "day_obs"] := rfl
        rw [hred] at hsp
        obtain ⟨a, b⟩ := v1
        simp at hsp
        simp [hsp.1, hsp.2]
      have hv2 : v2 = ("exposure", "seq_num") := by
        have hsp := (get_column_ok_split db _ v2 hg2).1
        have hred : pySplitDot ("exposure" ++ ".seq_num") = ["exposure", "seq_num"] := rfl
        rw [hred] at hsp
        obtain ⟨a, b⟩ := v2
        simp at hsp
        simp [hsp.1, hsp.2]
      obtain ⟨colsA, hlkA, hmemA⟩ := (get_column_ok_split db _ v1 hg1).2
      obtain ⟨colsB, hlkB, hmemB⟩ := (get_column_ok_split db _ v2 hg2).2
      rw [hv1] at hlkA hmemA
      rw [hv2] at hlkB hmemB
      have hAB : colsA = colsB := by
        have h3 := hlkA.symm.trans hlkB
        injection h3
      refine ⟨loopCols, loopNames, first, "exposure", rfl, hhead,
        Or.inr ⟨hv, he, rfl⟩, ?_, ?_, ?_, colsA, hlkA, hmemA, ?_⟩
      · rw [← hdids, hdids2, hv1, hv2]
      · rw [← htc, hcols2, hv1, hv2]
      · rw [← hnames]
      · rw [hAB]
        exact hmemB
    · rw [if_neg he] at h
      exact absurd h (by simp)

/-- Kleene conjunction is `some true` exactly when every conjunct is
(shared helper). -/
theorem kAnd_eq_some_true (l : List (Option Bool)) :
    kAnd l = some true ↔ ∀ x ∈ l, x = some true := by
  constructor
  · intro h x hx
    unfold kAnd at h
    by_cases hf : some false ∈ l
    · rw [if_pos hf] at h
      exact absurd h (by simp)
    · rw [if_neg hf] at h
      by_cases hn : (none : Option Bool) ∈ l
      · rw [if_pos hn] at h
        exact absurd h (by simp)
      · rcases x with _ | b
        · exact absurd hx hn
        · cases b
          · exact absurd hx hf
          · rfl
  · intro hall
    unfold kAnd
    have hf : ¬ some false ∈ l := fun hx => by simpa using hall _ hx
    have hn : ¬ (none : Option Bool) ∈ l := fun hx => by simpa using hall _ hx
    rw [if_neg hf, if_neg hn]

/-- `evalSAList` is `List.map` of `evalSA` (shared helper). -/
theorem evalSAList_eq_map (row : Row) (es : List SAExpr) :
    evalSAList row es = es.map (fun e => evalSA row e) := by
  induction es with
  | nil => rfl
  | cons e es ih => simp [evalSAList, ih]

/-- The conjunction of `IS NOT NULL` guards on a set of labelled
columns is `TRUE` on a row exactly when none of those columns is null
there (shared helper). -/
theorem guards_eq_true_iff (row : Row) (tc : List LabeledCol) :
    evalSA row (.and (tc.map fun lc => .isNotNull lc.table lc.col)) = some true ↔
      ∀ lc ∈ tc, row lc.table lc.col ≠ .null := by
  have h1 : evalSA row (.and (tc.map fun lc => .isNotNull lc.table lc.col)) =
      kAnd (evalSAList row (tc.map fun lc => .isNotNull lc.table lc.col)) := rfl
  rw [h1, kAnd_eq_some_true, evalSAList_eq_map]
  constructor
  · intro h lc hlc
    have := h _ (List.mem_map_of_mem _ (List.mem_map_of_mem _ hlc))
    simpa [evalSA] using this
  · intro h x hx
    rcases List.mem_map.mp hx with ⟨e, he, rfl⟩
    rcases List.mem_map.mp he with ⟨lc, hlc, rfl⟩
    simpa [evalSA] using h lc hlc

/-- Characterisation of a successful `ConsDbSchema.query` without
explicit data-ids (shared helper): the data-id columns unpack into two,
the projection is exactly the resolved column set, and the WHERE clause
is the conjunction of non-null guards, AND-ed with the compiled
predicate when a query is supplied; the FROM clause is the join built
over the touched tables. -/
theorem query_spec (db : ConsDbSchema) (columns : List String) (q : Option Query)
    (tc : List LabeledCol) (names : List String) (dids : List (String × String))
    (sel : SelectModel)
    (hm : db.get_column_models columns = .ok (tc, names, dids))
    (hq : db.query columns q none = .ok sel) :
    ∃ d1 d2,
      dids = [d1, d2] ∧
      sel.projection = tc ∧
      ((q = none ∧
          sel.whereClause = .and (tc.map fun lc => .isNotNull lc.table lc.col) ∧
          build_join db.tables db.join_graph names = .ok sel.select_from) ∨
       (∃ qq qr, q = some qq ∧ qq.call db = .ok qr ∧
          sel.whereClause =
            .and [.and (tc.map fun lc => .isNotNull lc.table lc.col), qr.1] ∧
          build_join db.tables db.join_graph (setUpdate names qr.2) =
            .ok sel.select_from)) := by
  unfold ConsDbSchema.query at hq
  simp only [hm, bind, Except.bind] at hq
  rcases dids with _ | ⟨d1, _ | ⟨d2, _ | ⟨d3, rest⟩⟩⟩
  · exact absurd hq (by simp)
  · exact absurd hq (by simp)
  · refine ⟨d1, d2, rfl, ?_⟩
    rcases q with _ | qq
    · simp only [bind, Except.bind] at hq
      rcases hbj : build_join db.tables db.join_graph names with e | sf <;>
        rw [hbj] at hq
      · exact absurd hq (by simp)
      · cases hq
        exact ⟨rfl, Or.inl ⟨rfl, rfl, rfl⟩⟩
    · simp only [bind, Except.bind] at hq
      rcases hcall : qq.call db with e | qr <;> rw [hcall] at hq
      · exact absurd hq (by simp)
      · simp only [bind, Except.bind] at hq
        rcases hbj : build_join db.tables db.join_graph (setUpdate names qr.2)
          with e | sf <;> rw [hbj] at hq
        · exact absurd hq (by simp)
        · cases hq
          exact ⟨rfl, Or.inr ⟨qq, qr, rfl, hcall, rfl, hbj⟩⟩
  · exact absurd hq (by simp)

/-- C2, counterexample.  `visit1_quicklook` declares index columns
`[visit_id]` in the schema configuration, yet a request for one of its
columns does not include `visit1_quicklook.visit_id` in the projection:
only the hard-coded `visit1.day_obs` / `visit1.seq_num` are added. -/
theorem C2_counterexample :
    db0.index_columns.lookup "visit1_quicklook" = some ["visit_id"] ∧
    db0.get_column_models ["visit1_quicklook.exp_time"] =
      .ok ([⟨"visit1_quicklook", "exp_time", "visit1_quicklook.exp_time"⟩,
            ⟨"visit1", "day_obs", "day_obs"⟩, ⟨"visit1", "seq_num", "seq_num"⟩],
           ["visit1_quicklook", "visit1"],
           [("visit1", "day_obs"), ("visit1", "seq_num")]) ∧
    (∀ lc ∈ ([⟨"visit1_quicklook", "exp_time", "visit1_quicklook.exp_time"⟩,
              ⟨"visit1", "day_obs", "day_obs"⟩,
              ⟨"visit1", "seq_num", "seq_num"⟩] : List LabeledCol),
      ¬(lc.table = "visit1_quicklook" ∧ lc.col = "visit_id")) :=
  ⟨rfl, rfl, by decide⟩

/-- C2, amended.  A successful `get_column_models` extends the
projection with exactly the two hard-coded `day_obs` and `seq_num`
columns of the single anchor table (`visit1` or `exposure`, chosen by
the family of the first referenced table), not with the declared index
columns of each referenced table; the anchor is added to the joined
table set. -/
theorem C2_data_id_columns (db : ConsDbSchema) (columns : List String)
    (tc : List LabeledCol) (names : List String) (dids : List (String × String))
    (h : db.get_column_models columns = .ok (tc, names, dids)) :
    ∃ anchor loopCols loopNames,
      (anchor = "visit1" ∨ anchor = "exposure") ∧
      columnModelsLoop db [] [] columns = .ok (loopCols, loopNames) ∧
      tc = loopCols ++
        [⟨anchor, "day_obs", "day_obs"⟩, ⟨anchor, "seq_num", "seq_num"⟩] ∧
      dids = [(anchor, "day_obs"), (anchor, "seq_num")] ∧
      anchor ∈ names := by
  obtain ⟨loopCols, loopNames, first, anchor, hloop, hhead, hcase, hdids, htc,
    hnames, _⟩ := get_column_models_spec db columns tc names dids h
  refine ⟨anchor, loopCols, loopNames, ?_, hloop, htc, hdids, ?_⟩
  · rcases hcase with ⟨_, ha⟩ | ⟨_, _, ha⟩
    · exact Or.inl ha
    · exact Or.inr ha
  · rw [hnames]
    by_cases hmem : anchor ∈ loopNames
    · rw [if_pos hmem]
      exact hmem
    · rw [if_neg hmem]
      exact List.mem_append.mpr (Or.inr (by simp))

/-- C2, witness: the amended theorem instantiated at `db0` and a
request for `visit1_quicklook.exp_time`. -/
theorem C2_witness :
    db0.get_column_models ["visit1_quicklook.exp_time"] =
      .ok ([⟨"visit1_quicklook", "exp_time", "visit1_quicklook.exp_time"⟩,
            ⟨"visit1", "day_obs", "day_obs"⟩, ⟨"visit1", "seq_num", "seq_num"⟩],
           ["visit1_quicklook", "visit1"],
           [("visit1", "day_obs"), ("visit1", "seq_num")]) ∧
    ∃ anchor loopCols loopNames,
      (anchor = "visit1" ∨ anchor = "exposure") ∧
      columnModelsLoop db0 [] [] ["visit1_quicklook.exp_time"] =
        .ok (loopCols, loopNames) ∧
      ([⟨"visit1_quicklook", "exp_time", "visit1_quicklook.exp_time"⟩,
        ⟨"visit1", "day_obs", "day_obs"⟩,
        ⟨"visit1", "seq_num", "seq_num"⟩] : List LabeledCol) = loopCols ++
        [⟨anchor, "day_obs", "day_obs"⟩, ⟨anchor, "seq_num", "seq_num"⟩] ∧
      [("visit1", "day_obs"), ("visit1", "seq_num")] =
        [(anchor, "day_obs"), (anchor, "seq_num")] ∧
      anchor ∈ ["visit1_quicklook", "visit1"] :=
  ⟨rfl, C2_data_id_columns db0 ["visit1_quicklook.exp_time"]
    [⟨"visit1_quicklook", "exp_time", "visit1_quicklook.exp_time"⟩,
     ⟨"visit1", "day_obs", "day_obs"⟩, ⟨"visit1", "seq_num", "seq_num"⟩]
    ["visit1_quicklook", "visit1"]
    [("visit1", "day_obs"), ("visit1", "seq_num")] rfl⟩

/-- C8, counterexample.  A request whose columns all come from the
single table `visit1_quicklook` does not select from the bare table:
the engine adds the data-id table `visit1` and emits a join. -/
theorem C8_counterexample :
    db0.query ["visit1_quicklook.exp_time"] none none =
      .ok ⟨[⟨"visit1_quicklook", "exp_time", "visit1_quicklook.exp_time"⟩,
            ⟨"visit1", "day_obs", "day_obs"⟩, ⟨"visit1", "seq_num", "seq_num"⟩],
           .join (.table "visit1_quicklook") "visit1"
             [.colEq "visit1_quicklook" "visit_id" "visit1" "visit_id"],
           .and [.isNotNull "visit1_quicklook" "exp_time",
                 .isNotNull "visit1" "day_obs", .isNotNull "visit1" "seq_num"]⟩ ∧
    (SAFrom.join (.table "visit1_quicklook") "visit1"
        [.colEq "visit1_quicklook" "visit_id" "visit1" "visit_id"]).hasJoin = true := by
  constructor
  · simp +decide [ConsDbSchema.query, ConsDbSchema.get_column_models, columnModelsLoop,
      add_data_ids, ConsDbSchema.get_column, pySplitDot, splitCharsOnDot,
      build_join, buildJoinLoop, find_join_path, bfsAux, joinAlongPath, buildConditions,
      ConsDbSchema.join_graph, build_join_graph, setEdge, updateAssoc, db0, List.lookup,
      visit1_tables, exposure_tables, bind, Except.bind]
  · rfl

/-- C8, amended.  The join builder applied to a singleton table set
returns the bare table with no join clause and no path search; at the
pipeline level this happens exactly when the touched-table set collapses
to the data-id anchor itself (e.g. all requested columns come from
`visit1`), since `get_column_models` always adds the anchor. -/
theorem C8_single_table (tables : List (String × List String)) (graph : JoinGraph)
    (t : String) (T : List String) (ht : tables.lookup t = some T) :
    build_join tables graph [t] = .ok (.table t) ∧
    ∀ (db : ConsDbSchema) (columns : List String) (tc : List LabeledCol)
      (dids : List (String × String)) (sel : SelectModel),
      db.get_column_models columns = .ok (tc, ["visit1"], dids) →
      db.query columns none none = .ok sel →
      sel.select_from = .table "visit1" := by
  constructor
  · simp [build_join, ht, buildJoinLoop, bind, Except.bind]
  · intro db columns tc dids sel hm hq
    obtain ⟨d1, d2, hdids, hproj, hcase⟩ :=
      query_spec db columns none tc ["visit1"] dids sel hm hq
    rcases hcase with ⟨_, _, hbj⟩ | ⟨qq, qr, hsome, _⟩
    · obtain ⟨loopCols, loopNames, first, anchor, hloop, hhead, hcaseA, _, _,
        hnames, colsA, hlkA, _, _⟩ :=
        get_column_models_spec db columns tc ["visit1"] dids hm
      have hanchor : anchor = "visit1" := by
        by_cases hmem : anchor ∈ loopNames
        · rw [if_pos hmem] at hnames
          rw [← hnames] at hmem
          simpa using hmem
        · rw [if_neg hmem] at hnames
          rcases loopNames with _ | ⟨x, xs⟩
          · simpa using hnames.symm
          · rw [List.cons_append] at hnames
            have hlen := congrArg List.length hnames
            simp at hlen
      rw [hanchor] at hlkA
      have hb : build_join db.tables db.join_graph ["visit1"] =
          .ok (.table "visit1") := by
        simp [build_join, hlkA, buildJoinLoop, bind, Except.bind]
      rw [hb] at hbj
      have := hbj
      injection this with h2
      exact h2.symm
    · exact absurd hsome (by simp)

/-- C8, witness: a request for a `visit1` column keeps the table set at
the singleton `visit1` and the executed query selects from the bare
table. -/
theorem C8_witness :
    db0.tables.lookup "visit1" = some ["visit_id", "day_obs", "seq_num"] ∧
    build_join db0.tables db0.join_graph ["visit1"] = .ok (.table "visit1") ∧
    db0.get_column_models ["visit1.day_obs"] =
      .ok ([⟨"visit1", "day_obs", "visit1.day_obs"⟩,
            ⟨"visit1", "day_obs", "day_obs"⟩, ⟨"visit1", "seq_num", "seq_num"⟩],
           ["visit1"], [("visit1", "day_obs"), ("visit1", "seq_num")]) ∧
    db0.query ["visit1.day_obs"] none none =
      .ok ⟨[⟨"visit1", "day_obs", "visit1.day_obs"⟩,
            ⟨"visit1", "day_obs", "day_obs"⟩, ⟨"visit1", "seq_num", "seq_num"⟩],
           .table "visit1",
           .and [.isNotNull "visit1" "day_obs", .isNotNull "visit1" "day_obs",
                 .isNotNull "visit1" "seq_num"]⟩ ∧
    (SelectModel.mk [⟨"visit1", "day_obs", "visit1.day_obs"⟩,
        ⟨"visit1", "day_obs", "day_obs"⟩, ⟨"visit1", "seq_num", "seq_num"⟩]
      (.table "visit1")
      (.and [.isNotNull "visit1" "day_obs", .isNotNull "visit1" "day_obs",
             .isNotNull "visit1" "seq_num"])).select_from = .table "visit1" := by
  have h := C8_single_table db0.tables db0.join_graph "visit1"
    ["visit_id", "day_obs", "seq_num"] rfl
  exact ⟨rfl, h.1, rfl, rfl,
    h.2 db0 ["visit1.day_obs"]
      [⟨"visit1", "day_obs", "visit1.day_obs"⟩,
       ⟨"visit1", "day_obs", "day_obs"⟩, ⟨"visit1", "seq_num", "seq_num"⟩]
      [("visit1", "day_obs"), ("visit1", "seq_num")] _ rfl rfl⟩

/-- C9, counterexample.  The implicit data-id columns are projected
under the bare aliases `day_obs` / `seq_num`, not under fully-qualified
`table.column` aliases, so the claim "each projected column is aliased
by its fully-qualified name" fails on any request. -/
theorem C9_counterexample :
    db0.query ["exposure.ra"] none none =
      .ok ⟨[⟨"exposure", "ra", "exposure.ra"⟩,
            ⟨"exposure", "day_obs", "day_obs"⟩, ⟨"exposure", "seq_num", "seq_num"⟩],
           .table "exposure",
           .and [.isNotNull "exposure" "ra", .isNotNull "exposure" "day_obs",
                 .isNotNull "exposure" "seq_num"]⟩ ∧
    (⟨"exposure", "day_obs", "day_obs"⟩ : LabeledCol).label ≠
      "exposure" ++ "." ++ "day_obs" :=
  ⟨rfl, by decide⟩

/-- C9, amended.  For a successful query without explicit data-ids: the
projection is exactly the resolved column set, in which every requested
column is aliased by its fully-qualified name and the two implicit
data-id columns by the bare `day_obs` / `seq_num`; the WHERE clause is
the conjunction of `IS NOT NULL` guards on every projected column,
AND-ed with the compiled predicate when one is supplied; and the guard
conjunction is `TRUE` on a row exactly when no projected column is null
there (so such rows are excluded regardless of the comparison
operators). -/
theorem C9_projection_where (db : ConsDbSchema) (columns : List String)
    (q : Option Query) (tc : List LabeledCol) (names : List String)
    (dids : List (String × String)) (sel : SelectModel)
    (hm : db.get_column_models columns = .ok (tc, names, dids))
    (hq : db.query columns q none = .ok sel) :
    sel.projection = tc ∧
    (∀ lc ∈ tc, lc.label = lc.table ++ "." ++ lc.col ∨ lc.label = "day_obs" ∨
      lc.label = "seq_num") ∧
    ((q = none ∧
        sel.whereClause = .and (tc.map fun lc => .isNotNull lc.table lc.col)) ∨
     (∃ qq qr, q = some qq ∧ qq.call db = .ok qr ∧
        sel.whereClause =
          .and [.and (tc.map fun lc => .isNotNull lc.table lc.col), qr.1])) ∧
    (∀ row : Row,
      evalSA row (.and (tc.map fun lc => .isNotNull lc.table lc.col)) = some true ↔
        ∀ lc ∈ tc, row lc.table lc.col ≠ .null) := by
  obtain ⟨d1, d2, hdids, hproj, hcase⟩ :=
    query_spec db columns q tc names dids sel hm hq
  refine ⟨hproj, ?_, ?_, fun row => guards_eq_true_iff row tc⟩
  · obtain ⟨loopCols, loopNames, first, anchor, hloop, _, _, _, htc, _, _⟩ :=
      get_column_models_spec db columns tc names dids hm
    intro lc hlc
    rw [htc] at hlc
    rcases List.mem_append.mp hlc with hin | hdid
    · rcases columnModelsLoop_labels db columns [] [] loopCols loopNames hloop
        lc hin with habs | hlabel
      · exact absurd habs (List.not_mem_nil _)
      · exact Or.inl hlabel
    · simp at hdid
      rcases hdid with h1 | h1 <;> rw [h1]
      · exact Or.inr (Or.inl rfl)
      · exact Or.inr (Or.inr rfl)
  · rcases hcase with ⟨hqnone, hwhere, _⟩ | ⟨qq, qr, hsome, hcall, hwhere, _⟩
    · exact Or.inl ⟨hqnone, hwhere⟩
    · exact Or.inr ⟨qq, qr, hsome, hcall, hwhere⟩

/-- C9, witness: the amended theorem instantiated at `db0` and a
request for `exposure.ra` with no predicate. -/
theorem C9_witness :
    db0.get_column_models ["exposure.ra"] =
      .ok ([⟨"exposure", "ra", "exposure.ra"⟩,
            ⟨"exposure", "day_obs", "day_obs"⟩, ⟨"exposure", "seq_num", "seq_num"⟩],
           ["exposure"], [("exposure", "day_obs"), ("exposure", "seq_num")]) ∧
    db0.query ["exposure.ra"] none none =
      .ok ⟨[⟨"exposure", "ra", "exposure.ra"⟩,
            ⟨"exposure", "day_obs", "day_obs"⟩, ⟨"exposure", "seq_num", "seq_num"⟩],
           .table "exposure",
           .and [.isNotNull "exposure" "ra", .isNotNull "exposure" "day_obs",
                 .isNotNull "exposure" "seq_num"]⟩ ∧
    ((SelectModel.mk [⟨"exposure", "ra", "exposure.ra"⟩,
        ⟨"exposure", "day_obs", "day_obs"⟩, ⟨"exposure", "seq_num", "seq_num"⟩]
      (.table "exposure")
      (.and [.isNotNull "exposure" "ra", .isNotNull "exposure" "day_obs",
             .isNotNull "exposure" "seq_num"])).projection =
      [⟨"exposure", "ra", "exposure.ra"⟩,
       ⟨"exposure", "day_obs", "day_obs"⟩, ⟨"exposure", "seq_num", "seq_num"⟩] ∧
     (∀ lc ∈ ([⟨"exposure", "ra", "exposure.ra"⟩,
               ⟨"exposure", "day_obs", "day_obs"⟩,
               ⟨"exposure", "seq_num", "seq_num"⟩] : List LabeledCol),
       lc.label = lc.table ++ "." ++ lc.col ∨ lc.label = "day_obs" ∨
       lc.label = "seq_num") ∧
     (((none : Option Query) = none ∧
        (SelectModel.mk [⟨"exposure", "ra", "exposure.ra"⟩,
            ⟨"exposure", "day_obs", "day_obs"⟩, ⟨"exposure", "seq_num", "seq_num"⟩]
          (.table "exposure")
          (.and [.isNotNull "exposure" "ra", .isNotNull "exposure" "day_obs",
                 .isNotNull "exposure" "seq_num"])).whereClause =
          .and (([⟨"exposure", "ra", "exposure.ra"⟩,
                  ⟨"exposure", "day_obs", "day_obs"⟩,
                  ⟨"exposure", "seq_num", "seq_num"⟩] : List LabeledCol).map
            fun lc => .isNotNull lc.table lc.col)) ∨
      (∃ qq qr, (none : Option Query) = some qq ∧ qq.call db0 = .ok qr ∧
        (SelectModel.mk [⟨"exposure", "ra", "exposure.ra"⟩,
            ⟨"exposure", "day_obs", "day_obs"⟩, ⟨"exposure", "seq_num", "seq_num"⟩]
          (.table "exposure")
          (.and [.isNotNull "exposure" "ra", .isNotNull "exposure" "day_obs",
                 .isNotNull "exposure" "seq_num"])).whereClause =
          .and [.and (([⟨"exposure", "ra", "exposure.ra"⟩,
                        ⟨"exposure", "day_obs", "day_obs"⟩,
                        ⟨"exposure", "seq_num", "seq_num"⟩] : List LabeledCol).map
            fun lc => .isNotNull lc.table lc.col), qr.1])) ∧
     (∀ row : Row,
       evalSA row (.and (([⟨"exposure", "ra", "exposure.ra"⟩,
                           ⟨"exposure", "day_obs", "day_obs"⟩,
                           ⟨"exposure", "seq_num", "seq_num"⟩] :
            List LabeledCol).map fun lc => .isNotNull lc.table lc.col)) =
          some true ↔
        ∀ lc ∈ ([⟨"exposure", "ra", "exposure.ra"⟩,
                 ⟨"exposure", "day_obs", "day_obs"⟩,
                 ⟨"exposure", "seq_num", "seq_num"⟩] : List LabeledCol),
          row lc.table lc.col ≠ .null)) :=
  ⟨rfl, rfl, C9_projection_where db0 ["exposure.ra"] none
    [⟨"exposure", "ra", "exposure.ra"⟩,
     ⟨"exposure", "day_obs", "day_obs"⟩, ⟨"exposure", "seq_num", "seq_num"⟩]
    ["exposure"] [("exposure", "day_obs"), ("exposure", "seq_num")] _ rfl rfl⟩

/-- C6, counterexample.  There is no `InvalidReferenceError` class in
the code: a qualified name without a dot (or with two dots) fails with
the built-in `ValueError` from tuple unpacking, and an unknown table or
column fails with the built-in `KeyError` from the dictionary lookup. -/
theorem C6_counterexample :
    db0.get_column "exposure" = .error .valueError ∧
    db0.get_column "a.b.c" = .error .valueError ∧
    db0.get_column "nosuch.ra" = .error (.keyError "nosuch") ∧
    db0.get_column "exposure.nosuch" = .error (.keyError "nosuch") ∧
    PyErr.valueError ≠ PyErr.keyError "nosuch" :=
  ⟨rfl, rfl, rfl, rfl, by simp⟩

/-- C6, amended.  `get_column` on a well-formed `table.column` naming a
live table and column returns the column with that owning table; a
string that does not split into exactly two dot-separated parts fails
with `ValueError`; a two-part string naming an unknown table, or an
unknown column of a known table, fails with `KeyError` (the code has no
`InvalidReferenceError`). -/
theorem C6_get_column (db : ConsDbSchema) (s : String) :
    (∀ t c cols, pySplitDot s = [t, c] → db.tables.lookup t = some cols →
      c ∈ cols → db.get_column s = .ok (t, c)) ∧
    ((pySplitDot s).length ≠ 2 → db.get_column s = .error .valueError) ∧
    (∀ t c, pySplitDot s = [t, c] → db.tables.lookup t = none →
      db.get_column s = .error (.keyError t)) ∧
    (∀ t c cols, pySplitDot s = [t, c] → db.tables.lookup t = some cols →
      c ∉ cols → db.get_column s = .error (.keyError c)) := by
  refine ⟨?_, ?_, ?_, ?_⟩
  · intro t c cols hsplit hlk hc
    unfold ConsDbSchema.get_column
    rw [hsplit]
    show (match db.tables.lookup t with
      | none => Except.error (PyErr.keyError t)
      | some cols =>
        if c ∈ cols then Except.ok (t, c) else Except.error (PyErr.keyError c)) =
      Except.ok (t, c)
    simp [hlk, hc]
  · intro hlen
    unfold ConsDbSchema.get_column
    rcases hs : pySplitDot s with _ | ⟨t, _ | ⟨c, _ | _⟩⟩
    · rfl
    · rfl
    · rw [hs] at hlen
      exact absurd rfl hlen
    · rfl
  · intro t c hsplit hlk
    unfold ConsDbSchema.get_column
    rw [hsplit]
    show (match db.tables.lookup t with
      | none => Except.error (PyErr.keyError t)
      | some cols =>
        if c ∈ cols then Except.ok (t, c) else Except.error (PyErr.keyError c)) =
      Except.error (PyErr.keyError t)
    rw [hlk]
  · intro t c cols hsplit hlk hc
    unfold ConsDbSchema.get_column
    rw [hsplit]
    show (match db.tables.lookup t with
      | none => Except.error (PyErr.keyError t)
      | some cols =>
        if c ∈ cols then Except.ok (t, c) else Except.error (PyErr.keyError c)) =
      Except.error (PyErr.keyError c)
    simp [hlk, hc]

/-- C6, witness: the well-formed name `exposure.ra` resolves in `db0`
to the `ra` column owned by `exposure`. -/
theorem C6_witness :
    pySplitDot "exposure.ra" = ["exposure", "ra"] ∧
    db0.tables.lookup "exposure" =
      some ["exposure_id", "seq_num", "day_obs", "ra", "dec", "physical_filter",
            "obs_start"] ∧
    "ra" ∈ ["exposure_id", "seq_num", "day_obs", "ra", "dec", "physical_filter",
            "obs_start"] ∧
    db0.get_column "exposure.ra" = .ok ("exposure", "ra") :=
  ⟨rfl, rfl, by decide,
   (C6_get_column db0 "exposure.ra").1 "exposure" "ra"
     ["exposure_id", "seq_num", "day_obs", "ra", "dec", "physical_filter",
      "obs_start"] rfl rfl (by decide)⟩

/-- C7, counterexample.  In `db1` the join template joins on `visit_id`
but the live `visit1` table lacks that column: both the bare join
builder and the full query pipeline fail with the re-raised built-in
`KeyError` naming the missing column, not with `JoinError` (the class
the spec calls `JoinPathError`). -/
theorem C7_counterexample :
    build_join db1.tables db1.join_graph ["visit1_quicklook", "visit1"] =
      .error (.keyError "visit_id") ∧
    db1.query ["visit1_quicklook.exp_time"] none none =
      .error (.keyError "visit_id") ∧
    PyErr.keyError "visit_id" ≠ PyErr.joinError := by
  refine ⟨?_, ?_, by simp⟩ <;>
    simp +decide [ConsDbSchema.query, ConsDbSchema.get_column_models, columnModelsLoop,
      add_data_ids, ConsDbSchema.get_column, pySplitDot, splitCharsOnDot,
      build_join, buildJoinLoop, find_join_path, bfsAux, joinAlongPath, buildConditions,
      ConsDbSchema.join_graph, build_join_graph, setEdge, updateAssoc, db1, List.lookup,
      visit1_tables, exposure_tables, bind, Except.bind]

/-- C7, amended.  Whenever some declared column pair of an edge is
missing from the live tables, materialising the edge conditions fails
with the built-in `KeyError` naming a missing column of one of the
declared pairs (the error is logged and re-raised unchanged, so no
`JoinError` is raised on this code path). -/
theorem C7_missing_column (tables : List (String × List String)) (t1 t2 : String)
    (pairs : List (String × String)) (T1 T2 : List String)
    (h1 : tables.lookup t1 = some T1) (h2 : tables.lookup t2 = some T2)
    (hbad : ∃ p ∈ pairs, p.1 ∉ T1 ∨ p.2 ∉ T2) :
    ∃ c, buildConditions tables t1 t2 pairs = .error (.keyError c) ∧
      ∃ p ∈ pairs, (c = p.1 ∧ p.1 ∉ T1) ∨ (c = p.2 ∧ p.2 ∉ T2) := by
  induction pairs with
  | nil =>
    rcases hbad with ⟨p, hp, _⟩
    cases hp
  | cons pr rest ih =>
    obtain ⟨c1, c2⟩ := pr
    by_cases hc1 : c1 ∈ T1
    · by_cases hc2 : c2 ∈ T2
      · have hbad' : ∃ p ∈ rest, p.1 ∉ T1 ∨ p.2 ∉ T2 := by
          rcases hbad with ⟨p, hp, hor⟩
          rcases List.mem_cons.mp hp with hph | hmem
          · rw [hph] at hor
            rcases hor with hx | hx
            · exact absurd hc1 hx
            · exact absurd hc2 hx
          · exact ⟨p, hmem, hor⟩
        obtain ⟨c, hcond, p, hp, hcase⟩ := ih hbad'
        refine ⟨c, ?_, p, List.mem_cons_of_mem _ hp, hcase⟩
        simp [buildConditions, h1, hc1, h2, hc2, hcond, bind, Except.bind]
      · exact ⟨c2, by simp [buildConditions, h1, hc1, h2, hc2],
          (c1, c2), List.mem_cons_self _ _, Or.inr ⟨rfl, hc2⟩⟩
    · exact ⟨c1, by simp [buildConditions, h1, hc1],
        (c1, c2), List.mem_cons_self _ _, Or.inl ⟨rfl, hc1⟩⟩

/-- C7, witness: the broken schema `db1` instantiates the amended
theorem, producing `KeyError` for the missing `visit_id`. -/
theorem C7_witness :
    db1.tables.lookup "visit1_quicklook" = some ["visit_id", "exp_time"] ∧
    db1.tables.lookup "visit1" = some ["day_obs", "seq_num"] ∧
    (∃ p ∈ [("visit_id", "visit_id")],
      p.1 ∉ ["visit_id", "exp_time"] ∨ p.2 ∉ ["day_obs", "seq_num"]) ∧
    ∃ c, buildConditions db1.tables "visit1_quicklook" "visit1"
        [("visit_id", "visit_id")] = .error (.keyError c) ∧
      ∃ p ∈ [("visit_id", "visit_id")],
        (c = p.1 ∧ p.1 ∉ ["visit_id", "exp_time"]) ∨
        (c = p.2 ∧ p.2 ∉ ["day_obs", "seq_num"]) :=
  ⟨rfl, rfl, by decide,
   C7_missing_column db1.tables "visit1_quicklook" "visit1"
     [("visit_id", "visit_id")] ["visit_id", "exp_time"] ["day_obs", "seq_num"]
     rfl rfl (by decide)⟩

/-- C3, counterexample.  `ParentQuery` evaluation with operator `NOT`
and two children fails with `QueryError` (it calls the unary
`sqlalchemy.not_` with two positional clauses, and the `TypeError` is
re-raised as `QueryError`); it does not return the negation of the
conjunction of the children.  The second conjunct shows both children
on their own evaluate fine, so the failure is in the combinator. -/
theorem C3_counterexample :
    Query.call db0 (.parent [.equality "exposure.ra" "gt" (.int 0),
        .equality "exposure.dec" "lt" (.int 0)] "NOT") = .error .queryError ∧
    Query.callList db0 [.equality "exposure.ra" "gt" (.int 0),
        .equality "exposure.dec" "lt" (.int 0)] =
      .ok [(.cmp "gt" "exposure" "ra" (.int 0), ["exposure"]),
           (.cmp "lt" "exposure" "dec" (.int 0), ["exposure"])] :=
  ⟨rfl, rfl⟩

/-- C3, amended.  For a `NOT` combinator whose children evaluate
successfully: with exactly one child the result is the negation of that
child's predicate; with any other number of children the evaluation
fails with `QueryError` (not the negation of the conjunction). -/
theorem C3_not_combinator (db : ConsDbSchema) (children : List Query)
    (rs : List (SAExpr × List String))
    (h : Query.callList db children = .ok rs) :
    Query.call db (.parent children "NOT") =
      match rs with
      | [r] => .ok (.not r.1, setUpdate [] r.2)
      | _ => .error .queryError := by
  rcases rs with _ | ⟨r, _ | ⟨r2, rest⟩⟩ <;>
    simp [Query.call, h, combineChildren, setUpdate, bind, Except.bind]

/-- C3, witness for the amended theorem: a single-child `NOT` over a
concrete query produces the negated predicate. -/
theorem C3_witness :
    Query.callList db0 [.equality "exposure.ra" "gt" (.int 0)] =
      .ok [(.cmp "gt" "exposure" "ra" (.int 0), ["exposure"])] ∧
    Query.call db0 (.parent [.equality "exposure.ra" "gt" (.int 0)] "NOT") =
      .ok (.not (.cmp "gt" "exposure" "ra" (.int 0)), ["exposure"]) :=
  ⟨rfl, C3_not_combinator db0 [.equality "exposure.ra" "gt" (.int 0)]
    [(.cmp "gt" "exposure" "ra" (.int 0), ["exposure"])] rfl⟩

/-- C4.  `ParentQuery` evaluation with operator `XOR` over children
whose evaluations succeed builds exactly
`(P1 OR ... OR Pn) AND NOT (P1 AND ... AND Pn)` together with the union
of the touched-table sets, and for two children with defined boolean
values this predicate evaluates to standard binary XOR. -/
theorem C4_xor_combinator (db : ConsDbSchema) (children : List Query)
    (rs : List (SAExpr × List String))
    (h : Query.callList db children = .ok rs) (hne : rs ≠ []) :
    Query.call db (.parent children "XOR") =
      .ok (.and [.or (rs.map Prod.fst), .not (.and (rs.map Prod.fst))],
           rs.foldl (fun acc r => setUpdate acc r.2) []) ∧
    ∀ (row : Row) (e1 e2 : SAExpr) (a b : Bool),
      rs.map Prod.fst = [e1, e2] →
      evalSA row e1 = some a → evalSA row e2 = some b →
      evalSA row (.and [.or (rs.map Prod.fst), .not (.and (rs.map Prod.fst))]) =
        some (Bool.xor a b) := by
  constructor
  · have hmap : (rs.map Prod.fst).isEmpty = false := by
      cases rs with
      | nil => exact absurd rfl hne
      | cons r rest => rfl
    simp [Query.call, h, combineChildren, hmap, bind, Except.bind]
  · intro row e1 e2 a b hmap h1 h2
    rw [hmap]
    simp only [evalSA, evalSAList, h1, h2]
    cases a <;> cases b <;> rfl

/-- C4, witness: XOR over two concrete comparisons on a concrete row
where the first is true and the second false evaluates to true. -/
theorem C4_witness :
    Query.callList db0 [.equality "exposure.ra" "gt" (.int 0),
        .equality "exposure.dec" "gt" (.int 0)] =
      .ok [(.cmp "gt" "exposure" "ra" (.int 0), ["exposure"]),
           (.cmp "gt" "exposure" "dec" (.int 0), ["exposure"])] ∧
    Query.call db0 (.parent [.equality "exposure.ra" "gt" (.int 0),
        .equality "exposure.dec" "gt" (.int 0)] "XOR") =
      .ok (.and [.or [.cmp "gt" "exposure" "ra" (.int 0),
                      .cmp "gt" "exposure" "dec" (.int 0)],
                 .not (.and [.cmp "gt" "exposure" "ra" (.int 0),
                             .cmp "gt" "exposure" "dec" (.int 0)])],
           ["exposure"]) ∧
    evalSA row0 (.and [.or [.cmp "gt" "exposure" "ra" (.int 0),
                            .cmp "gt" "exposure" "dec" (.int 0)],
                       .not (.and [.cmp "gt" "exposure" "ra" (.int 0),
                                   .cmp "gt" "exposure" "dec" (.int 0)])]) =
      some true := by
  have h := C4_xor_combinator db0
    [.equality "exposure.ra" "gt" (.int 0), .equality "exposure.dec" "gt" (.int 0)]
    [(.cmp "gt" "exposure" "ra" (.int 0), ["exposure"]),
     (.cmp "gt" "exposure" "dec" (.int 0), ["exposure"])]
    rfl (List.cons_ne_nil _ _)
  refine ⟨rfl, h.1, ?_⟩
  have h2 := h.2 row0 (.cmp "gt" "exposure" "ra" (.int 0))
    (.cmp "gt" "exposure" "dec" (.int 0)) true false rfl rfl rfl
  exact h2

/-- C5.  A wire `Comparison` carrying both a left and a right
operator/value pair parses to the two-child AND `Combinator` over the
two single-sided comparisons, and evaluating the parsed query is
(literally) evaluating that explicit AND combinator. -/
theorem C5_range_sugar (s n lop rop : String) (lv rv : SQLVal)
    (q ql qr : Query) (db : ConsDbSchema)
    (hboth : Query.from_dict (.equality s n (some (lop, lv)) (some (rop, rv))) = .ok q)
    (hl : Query.from_dict (.equality s n (some (lop, lv)) none) = .ok ql)
    (hr : Query.from_dict (.equality s n none (some (rop, rv))) = .ok qr) :
    q = .parent [ql, qr] "AND" ∧
    Query.call db q = Query.call db (.parent [ql, qr] "AND") := by
  have hl' : parseLeftOnly s n lop lv = .ok ql := hl
  have hr' : parseRightOnly s n rop rv = .ok qr := hr
  have : Query.from_dict (.equality s n (some (lop, lv)) (some (rop, rv))) =
      .ok (.parent [ql, qr] "AND") := by
    simp [Query.from_dict, hl', hr', bind, Except.bind]
  rw [this] at hboth
  have hq : q = .parent [ql, qr] "AND" := by
    cases hboth
    rfl
  exact ⟨hq, by rw [hq]⟩

/-- C5, witness: the concrete range filter `0 < dec < 5` parses to the
AND of the two single-sided comparisons. -/
theorem C5_witness :
    Query.from_dict (.equality "exposure" "dec" (some ("lt", .int 0)) (some ("lt", .int 5))) =
      .ok (.parent [.equality "exposure.dec" "gt" (.int 0),
                    .equality "exposure.dec" "lt" (.int 5)] "AND") ∧
    Query.from_dict (.equality "exposure" "dec" (some ("lt", .int 0)) none) =
      .ok (.equality "exposure.dec" "gt" (.int 0)) ∧
    Query.from_dict (.equality "exposure" "dec" none (some ("lt", .int 5))) =
      .ok (.equality "exposure.dec" "lt" (.int 5)) ∧
    (Query.parent [.equality "exposure.dec" "gt" (.int 0),
                   .equality "exposure.dec" "lt" (.int 5)] "AND" =
       .parent [.equality "exposure.dec" "gt" (.int 0),
                .equality "exposure.dec" "lt" (.int 5)] "AND" ∧
     Query.call db0 (.parent [.equality "exposure.dec" "gt" (.int 0),
                              .equality "exposure.dec" "lt" (.int 5)] "AND") =
       Query.call db0 (.parent [.equality "exposure.dec" "gt" (.int 0),
                                .equality "exposure.dec" "lt" (.int 5)] "AND")) :=
  ⟨rfl, rfl, rfl,
   C5_range_sugar "exposure" "dec" "lt" "lt" (.int 0) (.int 5) _ _ _ db0 rfl rfl rfl⟩

/-- C10.  The `left_operator` table mirrors the ordering operators
(`lt ↦ gt`, `le ↦ ge`, `gt ↦ lt`, `ge ↦ le`, `eq` and `ne` unchanged);
parsing a left-only wire comparison builds the comparison with the
mirrored operator; and semantically, for non-null integer operands,
`column MIRROR(op) value` is exactly `value op column`. -/
theorem C10_left_operator_mirror :
    (left_operator.lookup "lt" = some "gt" ∧ left_operator.lookup "le" = some "ge" ∧
     left_operator.lookup "gt" = some "lt" ∧ left_operator.lookup "ge" = some "le" ∧
     left_operator.lookup "eq" = some "eq" ∧ left_operator.lookup "ne" = some "ne") ∧
    (∀ (s n : String) (lv : SQLVal),
      Query.from_dict (.equality s n (some ("lt", lv)) none) =
        .ok (.equality (s ++ "." ++ n) "gt" lv) ∧
      Query.from_dict (.equality s n (some ("le", lv)) none) =
        .ok (.equality (s ++ "." ++ n) "ge" lv) ∧
      Query.from_dict (.equality s n (some ("gt", lv)) none) =
        .ok (.equality (s ++ "." ++ n) "lt" lv) ∧
      Query.from_dict (.equality s n (some ("ge", lv)) none) =
        .ok (.equality (s ++ "." ++ n) "le" lv) ∧
      Query.from_dict (.equality s n (some ("eq", lv)) none) =
        .ok (.equality (s ++ "." ++ n) "eq" lv) ∧
      Query.from_dict (.equality s n (some ("ne", lv)) none) =
        .ok (.equality (s ++ "." ++ n) "ne" lv)) ∧
    (∀ x v : Int,
      cmpVals "gt" (.int x) (.int v) = cmpVals "lt" (.int v) (.int x) ∧
      cmpVals "ge" (.int x) (.int v) = cmpVals "le" (.int v) (.int x) ∧
      cmpVals "lt" (.int x) (.int v) = cmpVals "gt" (.int v) (.int x) ∧
      cmpVals "le" (.int x) (.int v) = cmpVals "ge" (.int v) (.int x) ∧
      cmpVals "eq" (.int x) (.int v) = cmpVals "eq" (.int v) (.int x) ∧
      cmpVals "ne" (.int x) (.int v) = cmpVals "ne" (.int v) (.int x)) := by
  refine ⟨⟨rfl, rfl, rfl, rfl, rfl, rfl⟩,
    fun s n lv => ⟨rfl, rfl, rfl, rfl, rfl, rfl⟩, fun x v => ⟨rfl, rfl, rfl, rfl, ?_, ?_⟩⟩
  · simp only [cmpVals]
    exact congrArg some (decide_eq_decide.mpr eq_comm)
  · simp only [cmpVals]
    exact congrArg some (decide_eq_decide.mpr ne_comm)

end RubinTV
